import Mathlib

/-!
Verification development for the GameBeam repository (a desktop launcher that
wraps the Sunshine host service and the Moonlight client).

Python strings are modelled as `List Char`, bytes as `List Nat` (each < 256),
Python dictionaries as insertion-ordered association lists, and the I/O
performed by each operation (filesystem probes, HTTP responses, subprocess
results, download chunks) as explicit environment parameters.  Fallible Python
code that catches its own exceptions is modelled with `Option`.
-/

namespace GameBeam

/-! ## Python string primitives -/

/-- Whitespace characters removed by Python str.strip() (ASCII subset; Python
also strips some rarer Unicode space characters, which no claim here touches). -/
def pyIsSpace (c : Char) : Bool :=
  c = ' ' || c = '\t' || c = '\n' || c = '\x0d' || c = '\x0b' || c = '\x0c'

/-- Python str.strip(): drop leading and trailing whitespace. -/
def pyStrip (l : List Char) : List Char :=
  ((l.dropWhile pyIsSpace).reverse.dropWhile pyIsSpace).reverse

/-- Python str.split(sep) where sep is a single character: split on every
occurrence of the separator. -/
def splitOnChar (sep : Char) : List Char → List (List Char)
  | [] => [[]]
  | c :: rest =>
    let r := splitOnChar sep rest
    if c = sep then [] :: r
    else
      match r with
      | g :: gs => (c :: g) :: gs
      | [] => [[c]]

/-- Python str.split(sep, 1) for a single-character separator: the part before
the first separator and the part after it (the whole string and [] when the
separator does not occur). -/
def splitOnce (sep : Char) : List Char → List Char × List Char
  | [] => ([], [])
  | c :: rest =>
    if c = sep then ([], rest)
    else
      let (a, b) := splitOnce sep rest
      (c :: a, b)

/-- Python str.lower() restricted to ASCII letters (release asset names and
the literals matched against them are ASCII). -/
def lowerChar (c : Char) : Char :=
  if 65 ≤ c.toNat ∧ c.toNat ≤ 90 then Char.ofNat (c.toNat + 32) else c

/-- Lower-case a whole string. -/
def pyLower (l : List Char) : List Char := l.map lowerChar

/-- Python str(n) for a non-negative integer. -/
def natToChars (n : Nat) : List Char := Nat.toDigits 10 n

/-- Decimal digit characters. -/
def isDigitChar (c : Char) : Bool := 48 ≤ c.toNat && c.toNat ≤ 57

/-- Hexadecimal digit characters. -/
def isHexDigitChar (c : Char) : Bool :=
  isDigitChar c || (97 ≤ c.toNat && c.toNat ≤ 102) || (65 ≤ c.toNat && c.toNat ≤ 70)

/-- Numeric value of a decimal digit string. -/
def natOfDigits (g : List Char) : Nat :=
  g.foldl (fun acc c => acc * 10 + (c.toNat - 48)) 0

/-- Python substring containment: needle in hay. -/
def isSubstring (needle : List Char) : List Char → Bool
  | [] => needle.isEmpty
  | c :: rest => needle.isPrefixOf (c :: rest) || isSubstring needle rest

/-! ## Base64 (CPython `base64.urlsafe_b64encode` / `urlsafe_b64decode`)

`urlsafe_b64decode` translates '-' to '+' and '_' to '/' and then calls the
standard decoder in non-strict mode, which is implemented by CPython's
`binascii.a2b_base64`: characters outside the alphabet are silently
discarded, a completed padding group ends the scan, and an incomplete final
group raises an error.  Bit operations of the C code are written here with
division and remainder by powers of two. -/

/-- URL-safe base64 alphabet in encoding order. -/
def b64alphabet : List Char :=
  "ABCDEFGHIJKLMNOPQRSTUVWXYZabcdefghijklmnopqrstuvwxyz0123456789-_".data

/-- Character for a 6-bit value. -/
def b64char (n : Nat) : Char := b64alphabet.getD n 'A'

/-- Value of a base64 character after the url-safe translation step
('+' and '/' remain valid because the translation only rewrites '-' and '_');
none for every character outside the alphabet (including '='). -/
def b64table (c : Char) : Option Nat :=
  if c = '+' then some 62
  else if c = '/' then some 63
  else b64alphabet.findIdx? (fun a => a = c)

/-- CPython `binascii.b2a_base64` (standard base64 encoding with '=' padding),
over the url-safe alphabet. -/
def b64encode : List Nat → List Char
  | [] => []
  | [b1] => [b64char (b1 / 4), b64char (b1 % 4 * 16), '=', '=']
  | [b1, b2] =>
    [b64char (b1 / 4), b64char (b1 % 4 * 16 + b2 / 16), b64char (b2 % 16 * 4), '=']
  | b1 :: b2 :: b3 :: rest =>
    b64char (b1 / 4) :: b64char (b1 % 4 * 16 + b2 / 16) ::
      b64char (b2 % 16 * 4 + b3 / 64) :: b64char (b3 % 64) :: b64encode rest

/-- Python str.rstrip for a single strip character. -/
def rstripChar (strip : Char) (l : List Char) : List Char :=
  (l.reverse.dropWhile (fun c => c = strip)).reverse

/-- CPython `binascii.a2b_base64` in non-strict mode.  State: `qp` is the
position inside the current 4-character group, `lc` the bits left over from
the previous character, `pads` the number of '=' seen in the current group.
Returns none exactly where the C code raises (a final group of one data
character, or an incomplete final group). -/
def a2b : List Char → Nat → Nat → Nat → Option (List Nat)
  | [], qp, _, _ => if qp = 0 then some [] else none
  | c :: rest, qp, lc, pads =>
    if c = '=' then
      if 2 ≤ qp then
        if 4 ≤ qp + (pads + 1) then some []
        else a2b rest qp lc (pads + 1)
      else a2b rest qp lc pads
    else
      match b64table c with
      | none => a2b rest qp lc pads
      | some v =>
        if qp = 0 then a2b rest 1 v 0
        else if qp = 1 then (a2b rest 2 (v % 16) 0).map (fun out => (lc * 4 + v / 16) :: out)
        else if qp = 2 then (a2b rest 3 (v % 4) 0).map (fun out => (lc * 16 + v / 4) :: out)
        else (a2b rest 0 0 0).map (fun out => (lc * 64 + v) :: out)

/-! ## UTF-8 (Python str.encode / bytes.decode with the strict handler) -/

/-- UTF-8 encoding of one character. -/
def utf8encodeChar (c : Char) : List Nat :=
  let n := c.toNat
  if n < 128 then [n]
  else if n < 2048 then [192 + n / 64, 128 + n % 64]
  else if n < 65536 then [224 + n / 4096, 128 + n / 64 % 64, 128 + n % 64]
  else [240 + n / 262144, 128 + n / 4096 % 64, 128 + n / 64 % 64, 128 + n % 64]

/-- UTF-8 encoding of a string. -/
def utf8encode : List Char → List Nat
  | [] => []
  | c :: rest => utf8encodeChar c ++ utf8encode rest

/-- Continuation byte of a UTF-8 sequence: 0x80 to 0xBF. -/
def utf8cont (b : Nat) : Bool := 128 ≤ b && b < 192

/-- Allowed second byte of a three-byte sequence: the first byte 0xE0 forbids
overlong forms and 0xED forbids surrogate code points. -/
def utf8second3 (b b2 : Nat) : Bool :=
  if b = 224 then 160 ≤ b2 && b2 < 192
  else if b = 237 then 128 ≤ b2 && b2 < 160
  else utf8cont b2

/-- Allowed second byte of a four-byte sequence: the first byte 0xF0 forbids
overlong forms and 0xF4 caps the code point at 0x10FFFF. -/
def utf8second4 (b b2 : Nat) : Bool :=
  if b = 240 then 144 ≤ b2 && b2 < 192
  else if b = 244 then 128 ≤ b2 && b2 < 144
  else utf8cont b2

/-- Sequence length announced by a UTF-8 leading byte; 0 for bytes that can
never start a sequence (stray continuations 0x80-0xBF, the overlong starters
0xC0-0xC1, and 0xF5 upward). -/
def utf8len (b : Nat) : Nat :=
  if b < 128 then 1 else if b < 194 then 0 else if b < 224 then 2
  else if b < 240 then 3 else if b < 245 then 4 else 0

/-- Character of a valid two-byte sequence. -/
def utf8char2 (b b2 : Nat) : Option Char :=
  if utf8cont b2 then some (Char.ofNat ((b - 192) * 64 + (b2 - 128))) else none

/-- Character of a valid three-byte sequence. -/
def utf8char3 (b b2 b3 : Nat) : Option Char :=
  if utf8second3 b b2 && utf8cont b3 then
    some (Char.ofNat ((b - 224) * 4096 + (b2 - 128) * 64 + (b3 - 128))) else none

/-- Character of a valid four-byte sequence. -/
def utf8char4 (b b2 b3 b4 : Nat) : Option Char :=
  if utf8second4 b b2 && utf8cont b3 && utf8cont b4 then
    some (Char.ofNat ((b - 240) * 262144 + (b2 - 128) * 4096 + (b3 - 128) * 64 + (b4 - 128)))
  else none

/-- Strict UTF-8 decoding, as Python bytes.decode performs it: rejects stray
continuation bytes, overlong forms, surrogate code points, code points past
0x10FFFF, and truncated sequences.  The list patterns enumerate how many
bytes remain so that every recursive call is structural; the checks agree
with CPython at every byte (verified against its decoder on the examples
below). -/
def utf8decode : List Nat → Option (List Char)
  | [] => some []
  | [b] => if utf8len b = 1 then some [Char.ofNat b] else none
  | [b, b2] =>
    if utf8len b = 1 then (utf8decode [b2]).map (fun cs => Char.ofNat b :: cs)
    else if utf8len b = 2 then (utf8char2 b b2).map (fun c => [c])
    else none
  | [b, b2, b3] =>
    if utf8len b = 1 then (utf8decode [b2, b3]).map (fun cs => Char.ofNat b :: cs)
    else if utf8len b = 2 then
      match utf8char2 b b2 with
      | some c => (utf8decode [b3]).map (fun cs => c :: cs)
      | none => none
    else if utf8len b = 3 then (utf8char3 b b2 b3).map (fun c => [c])
    else none
  | b :: b2 :: b3 :: b4 :: rest =>
    if utf8len b = 1 then
      (utf8decode (b2 :: b3 :: b4 :: rest)).map (fun cs => Char.ofNat b :: cs)
    else if utf8len b = 2 then
      match utf8char2 b b2 with
      | some c => (utf8decode (b3 :: b4 :: rest)).map (fun cs => c :: cs)
      | none => none
    else if utf8len b = 3 then
      match utf8char3 b b2 b3 with
      | some c => (utf8decode (b4 :: rest)).map (fun cs => c :: cs)
      | none => none
    else if utf8len b = 4 then
      match utf8char4 b b2 b3 b4 with
      | some c => (utf8decode rest).map (fun cs => c :: cs)
      | none => none
    else none

example : utf8decode [195, 169] = some [Char.ofNat 233] := by decide
example : utf8decode [237, 160, 128] = none := by decide
example : utf8decode [240, 159, 152, 128] = some [Char.ofNat 128512] := by decide
example : utf8decode [192, 175] = none := by decide
example : utf8decode [224, 128, 128] = none := by decide
example : utf8decode [226, 130, 172] = some [Char.ofNat 8364] := by decide
example : utf8decode [195] = none := by decide
example : utf8decode [244, 144, 128, 128] = none := by decide
example : utf8decode [128] = none := by decide
example : utf8decode [224, 160, 128] = some [Char.ofNat 2048] := by decide
example : utf8decode [237, 159, 191] = some [Char.ofNat 55295] := by decide
example : utf8decode [244, 143, 191, 191] = some [Char.ofNat 1114111] := by decide
example : utf8decode [245, 128, 128, 128] = none := by decide

/-! ## Connection-code codec (src/utils.py) -/

/-- utils.encode_connection_code: url-safe base64 of the UTF-8 bytes, '='
padding stripped, prefixed with the literal tag.  The Python try/except around
the body is unreachable here because every Lean Char is a valid code point. -/
def encode_connection_code (ip : List Char) : List Char :=
  "GSP-".data ++ rstripChar '=' (b64encode (utf8encode ip))

/-- Padding step of utils.decode_connection_code: re-pad to a multiple of four
characters. -/
def padB64 (l : List Char) : List Char :=
  if l.length % 4 > 0 then l ++ List.replicate (4 - l.length % 4) '=' else l

/-- utils.decode_connection_code: strip whitespace, drop the "GSP-" prefix if
present, re-pad, base64-decode, UTF-8-decode; any failure yields none.  The
check for a character outside ASCII models the ascii-encoding step CPython's
b64decode applies to str input (it raises there for non-ASCII text). -/
def decode_connection_code (code : List Char) : Option (List Char) :=
  let c1 := pyStrip code
  let c2 := if "GSP-".data.isPrefixOf c1 then c1.drop 4 else c1
  let c3 := padB64 c2
  if c3.any (fun c => 128 ≤ c.toNat) then none
  else
    match a2b c3 0 0 0 with
    | none => none
    | some bs => utf8decode bs

/-! ## IP literal shapes (for the round-trip claim) -/

/-- Dotted-quad group: one to three decimal digits with value at most 255. -/
def ipv4GroupOK (g : List Char) : Bool :=
  !g.isEmpty && g.length ≤ 3 && g.all isDigitChar && natOfDigits g ≤ 255

/-- Valid IPv4 dotted-quad literal. -/
def isIPv4Literal (s : List Char) : Bool :=
  match splitOnChar '.' s with
  | [a, b, c, d] => ipv4GroupOK a && ipv4GroupOK b && ipv4GroupOK c && ipv4GroupOK d
  | _ => false

/-- Character-level superset of valid IPv6 textual literals: RFC 4291 notation
uses only hexadecimal digits, ':' separators and '.' in the embedded-IPv4
form, so every valid IPv6 literal satisfies this predicate. -/
def isIPv6Chars (s : List Char) : Bool :=
  !s.isEmpty && s.all (fun c => isHexDigitChar c || c = ':' || c = '.')

/-! ## Config store (src/qt_gui.py load_config / save_config)

The file content is a `List Char`; a missing file is `none`.  Iterating a
Python text file yields the pieces between newline characters (each Python
line carries its trailing newline, but the first thing load_config does with
a line is test for '=' and strip it, so splitting the newlines off up front
is behaviourally identical; the split also yields one final empty piece when
the content ends in a newline, and an empty piece never contains '=' so it is
skipped exactly as Python's loop never sees it). -/

/-- Per-line step of load_config: lines containing '=' are stripped and split
at the first '=', the value stripped again; other lines are skipped. -/
def parseLine (line : List Char) : Option (List Char × List Char) :=
  if line.contains '=' then
    let st := pyStrip line
    let kv := splitOnce '=' st
    some (kv.1, pyStrip kv.2)
  else none

/-- Python dict assignment cfg[k] = v on an insertion-ordered association
list: replace in place if the key is present, otherwise append. -/
def dictInsert : List (List Char × List Char) → List Char → List Char → List (List Char × List Char)
  | [], k, v => [(k, v)]
  | e :: rest, k, v => if e.1 = k then (e.1, v) :: rest else e :: dictInsert rest k v

/-- qt_gui.load_config. -/
def load_config (content : Option (List Char)) : List (List Char × List Char) :=
  match content with
  | none => []
  | some text =>
    (splitOnChar '\n' text).foldl
      (fun cfg line =>
        match parseLine line with
        | some kv => dictInsert cfg kv.1 kv.2
        | none => cfg)
      []

/-- qt_gui.save_config: one key=value line per entry, in iteration order. -/
def save_config (cfg : List (List Char × List Char)) : List Char :=
  cfg.foldr (fun kv acc => kv.1 ++ '=' :: kv.2 ++ '\n' :: acc) []

/-- Lookup in the association-list model of a Python dict. -/
def dictLookup (m : List (List Char × List Char)) (k : List Char) : Option (List Char) :=
  (m.find? (fun e => e.1 == k)).map (fun e => e.2)

/-- Value of the last entry with a given key in a list of parsed entries
(first match from the rear). -/
def lastVal (es : List (List Char × List Char)) (k : List Char) : Option (List Char) :=
  (es.reverse.find? (fun e => e.1 == k)).map (fun e => e.2)

/-! ## Release asset selection (src/sunshine.py:93-111, src/moonlight.py:30-50)

An asset is a pair of its name and its browser_download_url. -/

/-- First tier of SunshineInstaller.install's asset search. -/
def sunTier1 (a : List Char × List Char) : Bool :=
  let n := pyLower a.1
  isSubstring "windows".data n && isSubstring "portable".data n && ".zip".data.isSuffixOf n

/-- Fallback tier of SunshineInstaller.install's asset search (the comment in
the source reads: sometimes they name it differently, so we broaden the
search). -/
def sunTier2 (a : List Char × List Char) : Bool :=
  let n := pyLower a.1
  isSubstring "windows".data n && ".zip".data.isSuffixOf n

/-- SunshineInstaller.install's asset selection: first tier, then fallback,
then none (which makes install raise and fail). -/
def selectAssetSunshine (assets : List (List Char × List Char)) : Option (List Char) :=
  match assets.find? sunTier1 with
  | some a => some a.2
  | none => (assets.find? sunTier2).map (fun a => a.2)

/-- First tier of MoonlightInstaller.install's asset search. -/
def mlTier1 (a : List Char × List Char) : Bool :=
  let n := pyLower a.1
  isSubstring "portable".data n && isSubstring "x64".data n && ".zip".data.isSuffixOf n

/-- Fallback tier of MoonlightInstaller.install's asset search. -/
def mlTier2 (a : List Char × List Char) : Bool :=
  let n := pyLower a.1
  isSubstring "portable".data n && ".zip".data.isSuffixOf n

/-- MoonlightInstaller.install's asset selection. -/
def selectAssetMoonlight (assets : List (List Char × List Char)) : Option (List Char) :=
  match assets.find? mlTier1 with
  | some a => some a.2
  | none => (assets.find? mlTier2).map (fun a => a.2)

/-! ## Installer progress traces (src/sunshine.py:80-156, src/moonlight.py:21-93)

The environment captures the outcome of each I/O step; the function returns
the list of (text, percent) pairs delivered to the progress callback and the
overall success flag.  The exe-path walk after extraction affects only the
returned payload, never the callback trace or the success flag, so the
payload is not modelled here. -/

structure InstallEnv where
  /-- Status of the GitHub release-metadata request. -/
  apiStatus : Nat
  /-- Asset list of the release metadata. -/
  assets : List (List Char × List Char)
  /-- Whether directory creation and the download request itself succeed
  (raise_for_status and friends). -/
  downloadOk : Bool
  /-- Declared content-length of the download, when the header is present. -/
  contentLength : Option Nat
  /-- Sizes of the chunks delivered by iter_content. -/
  chunks : List Nat
  /-- Whether archive extraction succeeds. -/
  extractOk : Bool

/-- Download loop: each non-empty chunk advances the byte count and (when the
content length was declared) reports 30 + int(dl / total * 40).  A declared
length of zero makes the percent computation raise ZeroDivisionError, which
the installer's catch-all turns into failure; the flag records that.  Python
computes the quotient in floating point; truncated exact division agrees with
it on every bound and monotonicity fact used below. -/
def downloadLoop (t : Nat) : List Nat → Nat → List (List Char × Nat) × Bool
  | [], _ => ([], true)
  | c :: rest, dl =>
    if c = 0 then downloadLoop t rest dl
    else if t = 0 then ([], false)
    else
      let dl' := dl + c
      let r := downloadLoop t rest dl'
      (("Downloading...".data, 30 + dl' * 40 / t) :: r.1, r.2)

/-- Shared shape of SunshineInstaller.install and MoonlightInstaller.install,
parameterised by the tier-based asset selection and the first status text. -/
def installEvents (checkingMsg : List Char)
    (select : List (List Char × List Char) → Option (List Char))
    (env : InstallEnv) : List (List Char × Nat) × Bool :=
  let ev := [(checkingMsg, 10)]
  if env.apiStatus ≠ 200 then (ev, false)
  else
    match select env.assets with
    | none => (ev, false)
    | some _url =>
      let ev := ev ++ [("Downloading...".data, 30)]
      if !env.downloadOk then (ev, false)
      else
        let dl :=
          match env.contentLength with
          | none => ([], true)
          | some t => downloadLoop t env.chunks 0
        let ev := ev ++ dl.1
        if !dl.2 then (ev, false)
        else
          let ev := ev ++ [("Extracting...".data, 80)]
          if env.extractOk then (ev ++ [("Done!".data, 100)], true) else (ev, false)

/-- SunshineInstaller.install's callback trace and success flag. -/
def sunshineInstallEvents (env : InstallEnv) : List (List Char × Nat) × Bool :=
  installEvents "Checking latest release...".data selectAssetSunshine env

/-- MoonlightInstaller.install's callback trace and success flag. -/
def moonlightInstallEvents (env : InstallEnv) : List (List Char × Nat) × Bool :=
  installEvents "Checking Moonlight release...".data selectAssetMoonlight env

/-! ## PIN submission (src/sunshine.py:32-67) -/

/-- Outcome of the requests.post call in SunshineAPI.send_pin: an HTTP
response, a requests ConnectionError, or any other exception with its
message. -/
inductive PinOutcome where
  | httpResp (status : Nat) (text : List Char)
  | connectionError
  | otherError (msg : List Char)

/-- SunshineAPI.send_pin's result as a function of the request outcome. -/
def send_pin : PinOutcome → Bool × List Char
  | .httpResp s t =>
    if s = 200 then (true, "PIN accepted by Sunshine.".data)
    else if s = 401 then
      (false, "Authentication Failed (check Sunshine username/password).".data)
    else (false, "Error ".data ++ natToChars s ++ ": ".data ++ t)
  | .connectionError => (false, "Sunshine is not running or not reachable.".data)
  | .otherError m => (false, m)

/-! ## Executable resolution (src/sunshine.py:202-216, 285-309) -/

/-- SunshineManager.SYSTEM_PATHS. -/
def SYSTEM_PATHS : List (List Char) :=
  ["C:\\Program Files\\Sunshine\\sunshine.exe".data,
   "C:\\Program Files (x86)\\Sunshine\\sunshine.exe".data,
   "C:\\Sunshine\\sunshine.exe".data]

/-- Loop over SYSTEM_PATHS in SunshineManager._find_executable, returning the
resolved path and the log lines written. -/
def findSystemLoop (fsExists : List Char → Bool) :
    List (List Char) → Option (List Char) × List (List Char)
  | [] => (none, ["Sunshine executable not found in known locations.".data])
  | p :: rest =>
    if fsExists p then (some p, ["Found Sunshine at: ".data ++ p])
    else findSystemLoop fsExists rest

/-- SunshineManager._find_executable: the configured custom path if truthy and
existing, else the first existing system path, else none.  The filesystem is
the oracle fsExists. -/
def find_executable (custom : Option (List Char)) (fsExists : List Char → Bool) :
    Option (List Char) × List (List Char) :=
  match custom with
  | some c => if c ≠ [] ∧ fsExists c then (some c, []) else findSystemLoop fsExists SYSTEM_PATHS
  | none => findSystemLoop fsExists SYSTEM_PATHS

/-- Path resolution step of SunshineManager.start_service: the expression
explicit_path or _find_executable(), with Python string truthiness.  Note the
explicit path is used without any existence check. -/
def start_service_path (explicit : Option (List Char)) (custom : Option (List Char))
    (fsExists : List Char → Bool) : Option (List Char) :=
  match explicit with
  | some e => if e ≠ [] then some e else (find_executable custom fsExists).1
  | none => (find_executable custom fsExists).1

/-- Modelled from the spec: resolution as the claim states it, namely the
first path that exists on disk in priority order (explicit override, then the
configured custom path, then the well-known system paths), otherwise none. -/
def claimedResolution (explicit : Option (List Char)) (custom : Option (List Char))
    (fsExists : List Char → Bool) : Option (List Char) :=
  (explicit.toList ++ custom.toList ++ SYSTEM_PATHS).find? fsExists

/-! ## Credential initialization (src/sunshine.py:240-283) -/

/-- Outcome of the subprocess.run call in initialize_credentials: completion
with an exit code and captured stderr, or an exception with its message. -/
inductive SubOutcome where
  | completed (returncode : Int) (stderr : List Char)
  | raised (msg : List Char)

/-- SunshineManager.initialize_credentials: returns the (success, message)
pair and the list of log lines written during the call.  The resolved
executable and the subprocess outcome come from the environment; the password
never reaches a log line, only the literal eight-asterisk redaction. -/
def initialize_credentials (custom : Option (List Char)) (fsExists : List Char → Bool)
    (sub : SubOutcome) (username password : List Char) :
    (Bool × List Char) × List (List Char) :=
  let f := find_executable custom fsExists
  match f.1 with
  | none => ((false, "Sunshine.exe not found. Configure its path in Settings.".data), f.2)
  | some exe =>
    if username = [] ∨ password = [] then
      ((false, "Username and password are required.".data), f.2)
    else
      let lg := f.2 ++
        ["Initializing Sunshine credentials via: ".data ++ exe ++ " --creds ".data ++
          username ++ " ********".data]
      match sub with
      | .raised m => ((false, m), lg ++ ["Error running Sunshine --creds: ".data ++ m])
      | .completed rc stderr =>
        if rc ≠ 0 then
          let lg := lg ++
            ["Sunshine --creds failed (code ".data ++ (toString rc).data ++ "): ".data ++ stderr]
          let s := pyStrip stderr
          ((false, if s = [] then "Failed to set credentials.".data else s), lg)
        else
          ((true, "Credentials initialized.".data),
            lg ++ ["Sunshine credentials initialized successfully.".data])

/-! ## Moonlight session launch (src/moonlight.py:128-158) -/

/-- Command list built by MoonlightRunner.launch (argv including the
executable): the literal list ends with --quit-after, and the vsync flag is
appended after it. -/
def moonlightStreamCmd (exe host appName : List Char) (width height fps bitrate : Nat)
    (vsync : Bool) : List (List Char) :=
  [exe, "stream".data, host, appName,
   "--resolution".data, natToChars width ++ 'x' :: natToChars height,
   "--fps".data, natToChars fps,
   "--bitrate".data, natToChars bitrate,
   "--quit-after".data] ++
  (if vsync then ["--vsync".data] else ["--no-vsync".data])

/-- MoonlightRunner.launch: missing or non-existing executable fails before
anything is spawned; otherwise the command list is handed to Popen (spawnErr
carries the exception message if Popen raises).  Returns the (success,
message) pair and the argv actually spawned. -/
def moonlightLaunch (exePath : Option (List Char)) (fsExists : List Char → Bool)
    (spawnErr : Option (List Char)) (host appName : List Char)
    (width height fps bitrate : Nat) (vsync : Bool) :
    (Bool × List Char) × Option (List (List Char)) :=
  let bad := ((false, "Moonlight.exe not found. Please set path.".data),
              (none : Option (List (List Char))))
  match exePath with
  | none => bad
  | some exe =>
    if exe = [] ∨ ¬fsExists exe then bad
    else
      let cmd := moonlightStreamCmd exe host appName width height fps bitrate vsync
      match spawnErr with
      | none => ((true, "Moonlight Launched".data), some cmd)
      | some m => ((false, m), some cmd)

/-- Modelled from the spec: the argument list (after the executable) exactly
as claim C2 orders it, with the vsync flag before --quit-after. -/
def claimedStreamArgs (host appName : List Char) (width height fps bitrate : Nat)
    (vsync : Bool) : List (List Char) :=
  ["stream".data, host, appName,
   "--resolution".data, natToChars width ++ 'x' :: natToChars height,
   "--fps".data, natToChars fps,
   "--bitrate".data, natToChars bitrate,
   (if vsync then "--vsync".data else "--no-vsync".data),
   "--quit-after".data]

/-! ## Helper lemmas -/

/-- Unfolding of findSystemLoop as a first-match search. -/
theorem findSystemLoop_fst (fsExists : List Char → Bool) (l : List (List Char)) :
    (findSystemLoop fsExists l).1 = l.find? fsExists := by
  induction l with
  | nil => rfl
  | cons p rest ih =>
    by_cases h : fsExists p = true
    · simp [findSystemLoop, List.find?, h]
    · simp only [Bool.not_eq_true] at h
      simp [findSystemLoop, List.find?, h, ih]

/-! ## Claim C2 (MoonlightRunner.launch argument order) -/

/-- C2 counterexample: the argument list built by the code puts the vsync flag
after the final --quit-after, not before it as the claim orders the arguments;
at a concrete session the two lists differ. -/
theorem C2_counterexample :
    moonlightStreamCmd "C:\\m.exe".data "10.0.0.5".data "Desktop".data 1920 1080 60 20000 true ≠
      "C:\\m.exe".data ::
        claimedStreamArgs "10.0.0.5".data "Desktop".data 1920 1080 60 20000 true := by
  decide

/-- C2 amended: when launch is called with an existing nonempty executable
path, the argv handed to the spawned process is exactly the executable
followed by stream, host, app name, --resolution WxH, --fps N, --bitrate N,
--quit-after, and then the vsync or no-vsync flag chosen by the boolean (the
vsync flag comes last, after --quit-after). -/
theorem C2_launch_args (exe host appName : List Char) (fsExists : List Char → Bool)
    (spawnErr : Option (List Char)) (width height fps bitrate : Nat) (vsync : Bool)
    (hexe : exe ≠ []) (hfs : fsExists exe = true) :
    (moonlightLaunch (some exe) fsExists spawnErr host appName width height fps bitrate
        vsync).2 =
      some [exe, "stream".data, host, appName,
            "--resolution".data, natToChars width ++ 'x' :: natToChars height,
            "--fps".data, natToChars fps,
            "--bitrate".data, natToChars bitrate,
            "--quit-after".data,
            if vsync then "--vsync".data else "--no-vsync".data] := by
  cases spawnErr <;> cases vsync <;> simp [moonlightLaunch, moonlightStreamCmd, hexe, hfs]

/-- C2 witness: the amended statement evaluated at one concrete session. -/
theorem C2_launch_args_witness :
    (moonlightLaunch (some "C:\\m.exe".data) (fun p => p == "C:\\m.exe".data) none
        "10.0.0.5".data "Desktop".data 1920 1080 60 20000 false).2 =
      some ["C:\\m.exe".data, "stream".data, "10.0.0.5".data, "Desktop".data,
            "--resolution".data, "1920x1080".data,
            "--fps".data, "60".data,
            "--bitrate".data, "20000".data,
            "--quit-after".data, "--no-vsync".data] := by
  have h := C2_launch_args "C:\\m.exe".data "10.0.0.5".data "Desktop".data
    (fun p => p == "C:\\m.exe".data) none 1920 1080 60 20000 false
    (by decide) (by decide)
  rw [h]
  decide

/-! ## Claim C7 (SunshineAPI.send_pin outcome mapping) -/

/-- C7: send_pin is a total function of the request outcome (the Python body
catches every exception), and it maps an HTTP 200 response to success, 401 to
the distinct authentication-failure message, any other status to a generic
message carrying the status code and the response body, a connection failure
to the distinct not-reachable message, and any other exception to that
exception's message; the three fixed failure messages are pairwise
distinct. -/
theorem C7_send_pin_mapping :
    (∀ t, send_pin (.httpResp 200 t) = (true, "PIN accepted by Sunshine.".data)) ∧
    (∀ t, send_pin (.httpResp 401 t) =
      (false, "Authentication Failed (check Sunshine username/password).".data)) ∧
    (∀ s t, s ≠ 200 → s ≠ 401 →
      send_pin (.httpResp s t) = (false, "Error ".data ++ natToChars s ++ ": ".data ++ t)) ∧
    (send_pin .connectionError = (false, "Sunshine is not running or not reachable.".data)) ∧
    (∀ m, send_pin (.otherError m) = (false, m)) ∧
    ("Authentication Failed (check Sunshine username/password).".data ≠
      "Sunshine is not running or not reachable.".data) ∧
    ("Authentication Failed (check Sunshine username/password).".data ≠
      "PIN accepted by Sunshine.".data) := by
  refine ⟨fun t => rfl, fun t => rfl, fun s t h200 h401 => ?_, rfl, fun m => rfl,
    by decide, by decide⟩
  simp [send_pin, h200, h401]

/-- C7 witness: the mapping applied at status 500 with a concrete body. -/
theorem C7_send_pin_witness :
    (500 : Nat) ≠ 200 ∧ (500 : Nat) ≠ 401 ∧
    send_pin (.httpResp 500 "boom".data) =
      (false, "Error ".data ++ natToChars 500 ++ ": ".data ++ "boom".data) := by
  exact ⟨by decide, by decide,
    C7_send_pin_mapping.2.2.1 500 "boom".data (by decide) (by decide)⟩

/-! ## Claim C8 (executable resolution priority) -/

/-- C8 counterexample: with an explicit override that does not exist on disk
and a configured custom path that does, the code resolves to the override (it
is used without any existence check), while the claimed first-existing-path
rule resolves to the custom path. -/
theorem C8_counterexample :
    start_service_path (some "X".data) (some "C".data) (fun p => p == "C".data) =
      some "X".data ∧
    claimedResolution (some "X".data) (some "C".data) (fun p => p == "C".data) =
      some "C".data ∧
    start_service_path (some "X".data) (some "C".data) (fun p => p == "C".data) ≠
      claimedResolution (some "X".data) (some "C".data) (fun p => p == "C".data) := by
  refine ⟨by decide, by decide, by decide⟩

/-- C8 amended: a nonempty explicit override is returned unconditionally,
without an existence check; an absent or empty override falls through to
_find_executable, which returns the configured custom path when it is
nonempty and exists on disk, else the first existing well-known system path,
else none. -/
theorem C8_resolution_order :
    (∀ e custom fsExists, e ≠ [] →
      start_service_path (some e) custom fsExists = some e) ∧
    (∀ custom fsExists,
      start_service_path (some []) custom fsExists =
        start_service_path none custom fsExists) ∧
    (∀ c fsExists, c ≠ [] → fsExists c = true →
      start_service_path none (some c) fsExists = some c) ∧
    (∀ c fsExists, c = [] ∨ fsExists c = false →
      start_service_path none (some c) fsExists = SYSTEM_PATHS.find? fsExists) ∧
    (∀ fsExists, start_service_path none none fsExists = SYSTEM_PATHS.find? fsExists) := by
  refine ⟨fun e custom fsExists he => by simp [start_service_path, he],
    fun custom fsExists => by simp [start_service_path],
    fun c fsExists hc hex => by simp [start_service_path, find_executable, hc, hex],
    fun c fsExists h => ?_,
    fun fsExists => by simp [start_service_path, find_executable, findSystemLoop_fst]⟩
  rcases h with h | h
  · subst h
    simp [start_service_path, find_executable, findSystemLoop_fst]
  · simp [start_service_path, find_executable, h, findSystemLoop_fst]

/-- C8 witness: the amended resolution evaluated at concrete inputs — a
nonempty override wins even when nothing exists on disk. -/
theorem C8_resolution_witness :
    "X".data ≠ [] ∧
    start_service_path (some "X".data) none (fun _ => false) = some "X".data := by
  exact ⟨by decide, C8_resolution_order.1 "X".data none (fun _ => false) (by decide)⟩

/-! ## Claim C9 (initialize_credentials logging and failure mapping) -/

/-- C9 counterexample: two invocations that differ only in the password — one
empty, one not — write different log lines, because the empty password takes
the early validation return before the redacted command line is logged; and on
a non-zero exit the message carries the stderr stripped of surrounding
whitespace, not the captured stderr text verbatim. -/
theorem C9_counterexample :
    ((initialize_credentials (some "s.exe".data) (fun p => p == "s.exe".data)
        (.completed 0 []) "admin".data []).2 ≠
      (initialize_credentials (some "s.exe".data) (fun p => p == "s.exe".data)
        (.completed 0 []) "admin".data "x".data).2) ∧
    ((initialize_credentials (some "s.exe".data) (fun p => p == "s.exe".data)
        (.completed 1 " boom \n".data) "admin".data "pw".data).1 =
      (false, "boom".data)) ∧
    ((initialize_credentials (some "s.exe".data) (fun p => p == "s.exe".data)
        (.completed 1 " boom \n".data) "admin".data "pw".data).1 ≠
      (false, " boom \n".data)) := by
  refine ⟨by decide, by decide, by decide⟩

/-- C9 amended: for any two invocations that differ only in the password and
pass the validation check (both passwords nonempty), the log lines written
are identical — the password only ever appears as the fixed eight-asterisk
redaction; and when the executable is found, both credentials are nonempty
and the subprocess exits non-zero, the result is false with the stderr
stripped of surrounding whitespace, or with the generic failure message when
the stripped stderr is empty. -/
theorem C9_credentials_spec :
    (∀ custom fsExists sub user pw1 pw2, pw1 ≠ [] → pw2 ≠ [] →
      (initialize_credentials custom fsExists sub user pw1).2 =
        (initialize_credentials custom fsExists sub user pw2).2) ∧
    (∀ custom fsExists rc stderr user pw exe,
      (find_executable custom fsExists).1 = some exe → user ≠ [] → pw ≠ [] → rc ≠ 0 →
      (initialize_credentials custom fsExists (.completed rc stderr) user pw).1 =
        (false, if pyStrip stderr = [] then "Failed to set credentials.".data
                else pyStrip stderr)) := by
  constructor
  · intro custom fsExists sub user pw1 pw2 h1 h2
    cases hf : (find_executable custom fsExists).1 with
    | none => simp [initialize_credentials, hf]
    | some exe =>
      by_cases hu : user = []
      · simp [initialize_credentials, hf, hu]
      · cases sub with
        | completed rc stderr =>
          by_cases hrc : rc = 0 <;>
            simp [initialize_credentials, hf, hu, h1, h2, hrc]
        | raised m => simp [initialize_credentials, hf, hu, h1, h2]
  · intro custom fsExists rc stderr user pw exe hf hu hp hrc
    simp [initialize_credentials, hf, hu, hp, hrc]

/-- C9 witness: the amended statement applied at concrete inputs — same
environment, passwords "a" and "b", identical logs; and a non-zero exit with
whitespace-only stderr yielding the generic message. -/
theorem C9_credentials_witness :
    ("a".data ≠ ([] : List Char) ∧ "b".data ≠ ([] : List Char) ∧
      (initialize_credentials (some "s.exe".data) (fun p => p == "s.exe".data)
          (.completed 0 []) "admin".data "a".data).2 =
        (initialize_credentials (some "s.exe".data) (fun p => p == "s.exe".data)
            (.completed 0 []) "admin".data "b".data).2) ∧
    (initialize_credentials (some "s.exe".data) (fun p => p == "s.exe".data)
        (.completed 7 "  \n".data) "admin".data "pw".data).1 =
      (false, if pyStrip "  \n".data = [] then "Failed to set credentials.".data
              else pyStrip "  \n".data) := by
  refine ⟨⟨by decide, by decide,
    C9_credentials_spec.1 (some "s.exe".data) (fun p => p == "s.exe".data)
      (.completed 0 []) "admin".data "a".data "b".data (by decide) (by decide)⟩,
    C9_credentials_spec.2 (some "s.exe".data) (fun p => p == "s.exe".data)
      7 "  \n".data "admin".data "pw".data "s.exe".data (by decide) (by decide)
      (by decide) (by decide)⟩

/-! ## Claim C1 (release asset selection) -/

/-- Asset selection of the Moonlight installer factored through the
lower-cased names: matching depends on an asset only through its lower-cased
name and its URL. -/
theorem selectMoonlight_lower (assets : List (List Char × List Char)) :
    selectAssetMoonlight assets =
      (((assets.map (fun a => (pyLower a.1, a.2))).find?
          (fun p => isSubstring "portable".data p.1 && isSubstring "x64".data p.1 &&
            ".zip".data.isSuffixOf p.1)).map (fun p => p.2)).or
        (((assets.map (fun a => (pyLower a.1, a.2))).find?
          (fun p => isSubstring "portable".data p.1 &&
            ".zip".data.isSuffixOf p.1)).map (fun p => p.2)) := by
  rw [List.find?_map, List.find?_map]
  have h1 : ((fun p : List Char × List Char =>
      isSubstring "portable".data p.1 && isSubstring "x64".data p.1 &&
        ".zip".data.isSuffixOf p.1) ∘ (fun a : List Char × List Char =>
          (pyLower a.1, a.2))) = mlTier1 := rfl
  have h2 : ((fun p : List Char × List Char =>
      isSubstring "portable".data p.1 && ".zip".data.isSuffixOf p.1) ∘
        (fun a : List Char × List Char => (pyLower a.1, a.2))) = mlTier2 := rfl
  rw [h1, h2]
  cases h : assets.find? mlTier1 with
  | none =>
    simp only [selectAssetMoonlight, h, Option.map_map, Option.map_none]
    rfl
  | some a => simp [selectAssetMoonlight, h, Option.map_map, Function.comp]

/-- Asset selection of the Sunshine installer factored through the lower-cased
names. -/
theorem selectSunshine_lower (assets : List (List Char × List Char)) :
    selectAssetSunshine assets =
      (((assets.map (fun a => (pyLower a.1, a.2))).find?
          (fun p => isSubstring "windows".data p.1 && isSubstring "portable".data p.1 &&
            ".zip".data.isSuffixOf p.1)).map (fun p => p.2)).or
        (((assets.map (fun a => (pyLower a.1, a.2))).find?
          (fun p => isSubstring "windows".data p.1 &&
            ".zip".data.isSuffixOf p.1)).map (fun p => p.2)) := by
  rw [List.find?_map, List.find?_map]
  have h1 : ((fun p : List Char × List Char =>
      isSubstring "windows".data p.1 && isSubstring "portable".data p.1 &&
        ".zip".data.isSuffixOf p.1) ∘ (fun a : List Char × List Char =>
          (pyLower a.1, a.2))) = sunTier1 := rfl
  have h2 : ((fun p : List Char × List Char =>
      isSubstring "windows".data p.1 && ".zip".data.isSuffixOf p.1) ∘
        (fun a : List Char × List Char => (pyLower a.1, a.2))) = sunTier2 := rfl
  rw [h1, h2]
  cases h : assets.find? sunTier1 with
  | none =>
    simp only [selectAssetSunshine, h, Option.map_map, Option.map_none]
    rfl
  | some a => simp [selectAssetSunshine, h, Option.map_map, Function.comp]

/-- C1 counterexample: an asset list in which no name contains "portable" at
all, yet the Sunshine installer's selection succeeds — its fallback tier
requires only "windows" and ".zip", so the install does not fail with "no
match" as the claim requires. -/
theorem C1_counterexample :
    ([("Sunshine-Windows-AMD64.zip".data, "u".data)].all
      (fun a => !isSubstring "portable".data (pyLower a.1))) = true ∧
    selectAssetSunshine [("Sunshine-Windows-AMD64.zip".data, "u".data)] =
      some "u".data := by
  refine ⟨by decide, by decide⟩

/-- C1 amended: the Moonlight installer behaves as claimed (platform tag
"x64"): it picks the first asset whose lower-cased name contains "portable",
"x64" and ends in ".zip", relaxes to "portable" plus ".zip" when none
matches, and reports no match whenever no lower-cased name contains
"portable".  The Sunshine installer's first tier requires "windows",
"portable" and ".zip", but its fallback drops "portable" and relaxes to
"windows" plus ".zip", and it reports no match only when no lower-cased name
contains "windows" and ends in ".zip".  Matching in both installers is
case-insensitive: selection depends on the asset names only through their
lower-cased forms. -/
theorem C1_asset_selection :
    (∀ assets a, assets.find? mlTier1 = some a →
      selectAssetMoonlight assets = some a.2) ∧
    (∀ assets a, assets.find? mlTier1 = none → assets.find? mlTier2 = some a →
      selectAssetMoonlight assets = some a.2) ∧
    (∀ assets, assets.all (fun a => !isSubstring "portable".data (pyLower a.1)) = true →
      selectAssetMoonlight assets = none) ∧
    (∀ assets a, assets.find? sunTier1 = some a →
      selectAssetSunshine assets = some a.2) ∧
    (∀ assets a, assets.find? sunTier1 = none → assets.find? sunTier2 = some a →
      selectAssetSunshine assets = some a.2) ∧
    (∀ assets, assets.all (fun a => !(isSubstring "windows".data (pyLower a.1) &&
        ".zip".data.isSuffixOf (pyLower a.1))) = true →
      selectAssetSunshine assets = none) ∧
    (∀ assets1 assets2,
      assets1.map (fun a => (pyLower a.1, a.2)) = assets2.map (fun a => (pyLower a.1, a.2)) →
      selectAssetMoonlight assets1 = selectAssetMoonlight assets2 ∧
      selectAssetSunshine assets1 = selectAssetSunshine assets2) := by
  refine ⟨fun assets a h => by simp [selectAssetMoonlight, h],
    fun assets a h1 h2 => by simp [selectAssetMoonlight, h1, h2],
    fun assets h => ?_,
    fun assets a h => by simp [selectAssetSunshine, h],
    fun assets a h1 h2 => by simp [selectAssetSunshine, h1, h2],
    fun assets h => ?_,
    fun assets1 assets2 h => ?_⟩
  · have hall := List.all_eq_true.mp h
    have h1 : assets.find? mlTier1 = none := by
      rw [List.find?_eq_none]
      intro a ha
      have := hall a ha
      simp only [Bool.not_eq_true'] at this
      simp [mlTier1, this]
    have h2 : assets.find? mlTier2 = none := by
      rw [List.find?_eq_none]
      intro a ha
      have := hall a ha
      simp only [Bool.not_eq_true'] at this
      simp [mlTier2, this]
    simp [selectAssetMoonlight, h1, h2]
  · have hall := List.all_eq_true.mp h
    have h1 : assets.find? sunTier1 = none := by
      rw [List.find?_eq_none]
      intro a ha
      have hx := hall a ha
      simp only [Bool.not_eq_true'] at hx
      simp only [Bool.not_eq_true]
      cases hw : isSubstring "windows".data (pyLower a.1) with
      | false => simp [sunTier1, hw]
      | true =>
        cases hz : ".zip".data.isSuffixOf (pyLower a.1) with
        | false => simp [sunTier1, hw, hz]
        | true => rw [hw, hz] at hx; simp at hx
    have h2 : assets.find? sunTier2 = none := by
      rw [List.find?_eq_none]
      intro a ha
      have hx := hall a ha
      simp only [Bool.not_eq_true'] at hx
      simp only [Bool.not_eq_true]
      cases hw : isSubstring "windows".data (pyLower a.1) with
      | false => simp [sunTier2, hw]
      | true =>
        cases hz : ".zip".data.isSuffixOf (pyLower a.1) with
        | false => simp [sunTier2, hw, hz]
        | true => rw [hw, hz] at hx; simp at hx
    simp [selectAssetSunshine, h1, h2]
  · constructor
    · rw [selectMoonlight_lower, selectMoonlight_lower, h]
    · rw [selectSunshine_lower, selectSunshine_lower, h]

/-- C1 witness: the amended statement applied at concrete asset lists — the
tier-one hit wins for Moonlight, and case only changes nothing. -/
theorem C1_asset_selection_witness :
    ([("Moonlight-qt-x64-PORTABLE.zip".data, "u1".data),
      ("moonlight-portable.zip".data, "u2".data)].find? mlTier1 =
        some ("Moonlight-qt-x64-PORTABLE.zip".data, "u1".data)) ∧
    selectAssetMoonlight
      [("Moonlight-qt-x64-PORTABLE.zip".data, "u1".data),
       ("moonlight-portable.zip".data, "u2".data)] = some "u1".data := by
  refine ⟨by decide, ?_⟩
  exact C1_asset_selection.1
    [("Moonlight-qt-x64-PORTABLE.zip".data, "u1".data),
     ("moonlight-portable.zip".data, "u2".data)]
    ("Moonlight-qt-x64-PORTABLE.zip".data, "u1".data) (by decide)

/-! ## Claims C10 and C5 (config store) -/

/-- Lookup on a nonempty association list. -/
theorem dictLookup_cons (e : List Char × List Char) (rest : List (List Char × List Char))
    (k : List Char) :
    dictLookup (e :: rest) k =
      if (e.1 == k) = true then some e.2 else dictLookup rest k := by
  by_cases h : (e.1 == k) = true <;> simp [dictLookup, List.find?, h]

/-- Lookup after a dict insertion: the inserted key now maps to the new value;
every other key is untouched. -/
theorem dictLookup_dictInsert (m : List (List Char × List Char)) (k' v k : List Char) :
    dictLookup (dictInsert m k' v) k = if k' = k then some v else dictLookup m k := by
  induction m with
  | nil =>
    by_cases h : k' = k
    · simp [dictInsert, dictLookup, List.find?, h]
    · have hb : (k' == k) = false := by simp [h]
      simp [dictInsert, dictLookup, List.find?, h, hb]
  | cons e rest ih =>
    by_cases he : e.1 = k'
    · simp only [dictInsert, if_pos he]
      by_cases h : k' = k
      · have hb : (e.1 == k) = true := by simp [he, h]
        simp [dictLookup_cons, hb, h]
      · have hb : (e.1 == k) = false := by simp [he, h]
        simp [dictLookup_cons, hb, h]
    · simp only [dictInsert, if_neg he]
      by_cases hek : e.1 = k
      · have hk : ¬ k' = k := fun hh => he (hek.trans hh.symm)
        have hb : (e.1 == k) = true := by simp [hek]
        simp [dictLookup_cons, hb, hk]
      · have hb : (e.1 == k) = false := by simp [hek]
        rw [dictLookup_cons, dictLookup_cons, hb]
        simp only [Bool.false_eq_true, if_false]
        exact ih

/-- Folding the line step of load_config equals folding plain dict insertion
over the parsed entries. -/
theorem load_foldl (lines : List (List Char)) (m : List (List Char × List Char)) :
    lines.foldl
      (fun cfg line =>
        match parseLine line with
        | some kv => dictInsert cfg kv.1 kv.2
        | none => cfg) m =
    (lines.filterMap parseLine).foldl (fun cfg kv => dictInsert cfg kv.1 kv.2) m := by
  induction lines generalizing m with
  | nil => rfl
  | cons line rest ih =>
    cases h : parseLine line <;> simp [List.filterMap_cons, h, ih]

/-- Lookup after folding dict insertions: the last inserted value for the key
wins, falling back to the accumulator. -/
theorem dictLookup_foldl (es : List (List Char × List Char))
    (m : List (List Char × List Char)) (k : List Char) :
    dictLookup (es.foldl (fun cfg kv => dictInsert cfg kv.1 kv.2) m) k =
      (lastVal es k).or (dictLookup m k) := by
  induction es generalizing m with
  | nil => simp [lastVal]
  | cons e rest ih =>
    have hstep : lastVal (e :: rest) k =
        (lastVal rest k).or (if (e.1 == k) = true then some e.2 else none) := by
      simp only [lastVal, List.reverse_cons, List.find?_append]
      cases hr : rest.reverse.find? (fun x => x.1 == k) <;>
        by_cases he : (e.1 == k) = true <;>
          simp [List.find?, he, Option.or]
    rw [List.foldl_cons, ih, hstep, dictLookup_dictInsert]
    by_cases he : e.1 = k
    · simp only [he, if_pos rfl, beq_self_eq_true, if_pos]
      cases hr : lastVal rest k <;> simp [Option.or]
    · have : ¬(e.1 == k) = true := by simp [he]
      simp only [if_neg he, if_neg this]
      cases hr : lastVal rest k <;> simp [Option.or]

/-- C10: load_config is total over arbitrary file contents by construction (a
missing file yields the empty mapping, and every exceptional path in the
Python body is caught), and when the same key occurs on several key=value
lines the returned mapping holds the value of the last such line: looking up
any key in the loaded mapping gives the value of the last parsed line for
that key. -/
theorem C10_load_config_last_wins :
    (∀ content k, dictLookup (load_config (some content)) k =
      lastVal ((splitOnChar '\n' content).filterMap parseLine) k) ∧
    load_config none = [] := by
  refine ⟨fun content k => ?_, rfl⟩
  show dictLookup
      ((splitOnChar '\n' content).foldl
        (fun cfg line =>
          match parseLine line with
          | some kv => dictInsert cfg kv.1 kv.2
          | none => cfg) []) k = _
  rw [load_foldl, dictLookup_foldl]
  cases h : lastVal ((splitOnChar '\n' content).filterMap parseLine) k <;>
    simp [dictLookup, List.find?, Option.or]

/-- Length of dropWhile never exceeds the original length. -/
theorem length_dropWhile_le' (p : Char → Bool) (l : List Char) :
    (l.dropWhile p).length ≤ l.length :=
  (List.dropWhile_sublist p).length_le

/-- Every element dropWhile keeps was already in the list. -/
theorem mem_of_mem_dropWhile (p : Char → Bool) (l : List Char) (c : Char)
    (h : c ∈ l.dropWhile p) : c ∈ l :=
  (List.dropWhile_sublist p).subset h

/-- dropWhile is the identity on lists none of whose elements satisfy the
predicate. -/
theorem dropWhile_all_false (p : Char → Bool) (l : List Char)
    (h : ∀ c ∈ l, p c = false) : l.dropWhile p = l := by
  cases l with
  | nil => rfl
  | cons a t => simp [List.dropWhile, h a (List.mem_cons_self a t)]

/-- pyStrip is the identity on strings with no whitespace anywhere. -/
theorem pyStrip_all_false (l : List Char) (h : ∀ c ∈ l, pyIsSpace c = false) :
    pyStrip l = l := by
  unfold pyStrip
  rw [dropWhile_all_false _ _ h, dropWhile_all_false, List.reverse_reverse]
  intro c hc
  exact h c (List.mem_reverse.mp hc)

/-- dropWhile that preserves the length is the identity. -/
theorem dropWhile_eq_self_of_length (p : Char → Bool) (l : List Char)
    (h : (l.dropWhile p).length = l.length) : l.dropWhile p = l := by
  cases l with
  | nil => rfl
  | cons a t =>
    by_cases hp : p a = true
    · exfalso
      have hle := length_dropWhile_le' p t
      simp [List.dropWhile, hp] at h
      omega
    · simp only [Bool.not_eq_true] at hp
      simp [List.dropWhile, hp]

/-- Splitting pyStrip-invariance into its two dropWhile halves. -/
theorem pyStrip_parts (l : List Char) (h : pyStrip l = l) :
    l.dropWhile pyIsSpace = l ∧ l.reverse.dropWhile pyIsSpace = l.reverse := by
  have hlen : ((l.dropWhile pyIsSpace).reverse.dropWhile pyIsSpace).length = l.length := by
    have hx : (pyStrip l).length = l.length := by rw [h]
    simpa [pyStrip] using hx
  have hle1 := length_dropWhile_le' pyIsSpace l
  have hle2 := length_dropWhile_le' pyIsSpace (l.dropWhile pyIsSpace).reverse
  rw [List.length_reverse] at hle2
  have hlen1 : (l.dropWhile pyIsSpace).length = l.length := by omega
  have hfront : l.dropWhile pyIsSpace = l := dropWhile_eq_self_of_length _ _ hlen1
  refine ⟨hfront, ?_⟩
  rw [hfront] at hlen
  exact dropWhile_eq_self_of_length _ _ (by rw [hlen, List.length_reverse])

/-- Head of a dropWhile-invariant nonempty list fails the predicate. -/
theorem head_false_of_dropWhile (p : Char → Bool) (a : Char) (t : List Char)
    (h : (a :: t).dropWhile p = a :: t) : p a = false := by
  by_cases hp : p a = true
  · exfalso
    simp only [List.dropWhile, hp] at h
    have hle := length_dropWhile_le' p t
    have hl := congrArg List.length h
    simp at hl
    omega
  · simpa using hp

/-- Key=value lines built from whitespace-clean keys and values are
pyStrip-invariant. -/
theorem pyStrip_entry (k v : List Char) (hk : pyStrip k = k) (hv : pyStrip v = v) :
    pyStrip (k ++ '=' :: v) = k ++ '=' :: v := by
  have heq : pyIsSpace '=' = false := by decide
  have hfront : (k ++ '=' :: v).dropWhile pyIsSpace = k ++ '=' :: v := by
    cases k with
    | nil => simp [List.dropWhile, heq]
    | cons a t =>
      have ha := head_false_of_dropWhile pyIsSpace a t (pyStrip_parts _ hk).1
      simp [List.dropWhile, ha]
  have hback : (k ++ '=' :: v).reverse.dropWhile pyIsSpace = (k ++ '=' :: v).reverse := by
    rw [List.reverse_append, List.reverse_cons]
    rw [List.append_assoc]
    cases hv' : v.reverse with
    | nil => simp [List.dropWhile, heq]
    | cons b w =>
      have hvrev : v.reverse.dropWhile pyIsSpace = v.reverse := (pyStrip_parts _ hv).2
      rw [hv'] at hvrev
      have hb := head_false_of_dropWhile pyIsSpace b w hvrev
      simp [List.dropWhile, hb]
  unfold pyStrip
  rw [hfront, hback, List.reverse_reverse]

/-- splitOnce at the separator inserted after a separator-free prefix. -/
theorem splitOnce_entry (k v : List Char) (hk : ∀ c ∈ k, ¬c = '=') :
    splitOnce '=' (k ++ '=' :: v) = (k, v) := by
  induction k with
  | nil => simp [splitOnce]
  | cons a t ih =>
    have ha : ¬a = '=' := hk a (List.mem_cons_self a t)
    have ht : ∀ c ∈ t, ¬c = '=' := fun c hc => hk c (List.mem_cons_of_mem a hc)
    simp [splitOnce, ha, ih ht]

/-- parseLine recovers a clean key/value pair from its saved line. -/
theorem parseLine_entry (k v : List Char)
    (hk : ∀ c ∈ k, ¬c = '=') (hkS : pyStrip k = k) (hvS : pyStrip v = v) :
    parseLine (k ++ '=' :: v) = some (k, v) := by
  have hc : (k ++ '=' :: v).contains '=' = true := by
    rw [List.contains_eq_any_beq]
    exact List.any_eq_true.mpr ⟨'=', by simp, by simp⟩
  simp [parseLine, hc, pyStrip_entry k v hkS hvS, splitOnce_entry k v hk, hvS]

/-- splitOnChar pulls off one separator-free line. -/
theorem splitOnChar_line (sep : Char) (a rest : List Char)
    (ha : ∀ c ∈ a, ¬c = sep) :
    splitOnChar sep (a ++ sep :: rest) = a :: splitOnChar sep rest := by
  induction a with
  | nil => simp [splitOnChar]
  | cons c t ih =>
    have hc : ¬c = sep := ha c (List.mem_cons_self c t)
    have ht : ∀ x ∈ t, ¬x = sep := fun x hx => ha x (List.mem_cons_of_mem c hx)
    have hstep : splitOnChar sep ((c :: t) ++ sep :: rest) =
        match splitOnChar sep (t ++ sep :: rest) with
        | g :: gs => (c :: g) :: gs
        | [] => [[c]] := by
      simp only [List.cons_append, splitOnChar, if_neg hc]
      rfl
    rw [hstep, ih ht]

/-- splitOnChar on a separator-free string is that single piece. -/
theorem splitOnChar_no_sep (sep : Char) (l : List Char) (h : ∀ c ∈ l, ¬c = sep) :
    splitOnChar sep l = [l] := by
  induction l with
  | nil => rfl
  | cons c t ih =>
    have hc : ¬c = sep := h c (List.mem_cons_self c t)
    have ht : ∀ x ∈ t, ¬x = sep := fun x hx => h x (List.mem_cons_of_mem c hx)
    simp only [splitOnChar, ih ht, if_neg hc]

/-- Lines of a saved config: one line per entry plus the final empty piece
after the last newline. -/
theorem save_config_lines (cfg : List (List Char × List Char))
    (h : ∀ e ∈ cfg, ∀ c ∈ e.1 ++ '=' :: e.2, ¬c = '\n') :
    splitOnChar '\n' (save_config cfg) =
      cfg.map (fun e => e.1 ++ '=' :: e.2) ++ [[]] := by
  induction cfg with
  | nil => rfl
  | cons e rest ih =>
    have hline := h e (List.mem_cons_self e rest)
    have hrest : ∀ x ∈ rest, ∀ c ∈ x.1 ++ '=' :: x.2, ¬c = '\n' :=
      fun x hx => h x (List.mem_cons_of_mem e hx)
    show splitOnChar '\n' (e.1 ++ '=' :: e.2 ++ '\n' :: save_config rest) = _
    have hassoc : e.1 ++ '=' :: e.2 ++ '\n' :: save_config rest =
        (e.1 ++ '=' :: e.2) ++ '\n' :: save_config rest := by simp
    rw [hassoc, splitOnChar_line '\n' _ _ hline, ih hrest]
    simp

/-- Inserting a fresh key appends. -/
theorem dictInsert_fresh (m : List (List Char × List Char)) (k v : List Char)
    (h : ∀ e ∈ m, ¬e.1 = k) : dictInsert m k v = m ++ [(k, v)] := by
  induction m with
  | nil => rfl
  | cons e rest ih =>
    have he : ¬e.1 = k := h e (List.mem_cons_self e rest)
    simp only [dictInsert, if_neg he, List.cons_append, List.cons.injEq, true_and]
    exact ih fun x hx => h x (List.mem_cons_of_mem e hx)

/-- Folding dict insertions of entries with pairwise-distinct keys, all fresh
for the accumulator, appends them in order. -/
theorem foldl_dictInsert_fresh (cfg : List (List Char × List Char)) :
    ∀ acc : List (List Char × List Char),
    (cfg.map (fun e => e.1)).Nodup →
    (∀ e ∈ cfg, ∀ e' ∈ acc, ¬e'.1 = e.1) →
    cfg.foldl (fun m kv => dictInsert m kv.1 kv.2) acc = acc ++ cfg := by
  induction cfg with
  | nil => intro acc _ _; simp
  | cons e rest ih =>
    intro acc hnd hfresh
    rw [List.foldl_cons]
    have hins : dictInsert acc e.1 e.2 = acc ++ [(e.1, e.2)] :=
      dictInsert_fresh acc e.1 e.2 (fun x hx => hfresh e (List.mem_cons_self e rest) x hx)
    rw [hins]
    rw [List.map_cons] at hnd
    have hpair := List.nodup_cons.mp hnd
    have hnd' : (rest.map (fun e => e.1)).Nodup := hpair.2
    have hkey : e.1 ∉ rest.map (fun e => e.1) := hpair.1
    have hfresh' : ∀ x ∈ rest, ∀ e' ∈ acc ++ [(e.1, e.2)], ¬e'.1 = x.1 := by
      intro x hx e' he'
      rcases List.mem_append.mp he' with hacc | hone
      · exact hfresh x (List.mem_cons_of_mem e hx) e' hacc
      · have : e' = (e.1, e.2) := by simpa using hone
        subst this
        intro hcontra
        exact hkey (List.mem_map.mpr ⟨x, hx, hcontra.symm⟩)
    rw [ih (acc ++ [(e.1, e.2)]) hnd' hfresh']
    simp

/-- filterMap of a function that hits some on every element of the list. -/
theorem filterMap_all_some (f : List Char × List Char → Option (List Char × List Char))
    (l : List (List Char × List Char)) (h : ∀ a ∈ l, f a = some a) :
    l.filterMap f = l := by
  induction l with
  | nil => rfl
  | cons a t ih =>
    rw [List.filterMap_cons, h a (List.mem_cons_self a t),
      ih fun x hx => h x (List.mem_cons_of_mem a hx)]

/-- Membership-style restatement of a false Bool contains. -/
theorem not_mem_of_contains_false (l : List Char) (c : Char)
    (h : l.contains c = false) : ∀ x ∈ l, ¬x = c := by
  intro x hx hcontra
  subst hcontra
  have hmem : l.contains x = true := by
    rw [List.contains_eq_any_beq]
    exact List.any_eq_true.mpr ⟨x, hx, by simp⟩
  rw [h] at hmem
  exact Bool.false_ne_true hmem

/-- C5 counterexample: a value with leading whitespace (and no '=' character)
does not round-trip — load strips it — so the claim's unconditional
round-trip for '='-free values fails. -/
theorem C5_counterexample :
    (" x".data.contains '=' = false) ∧
    load_config (some (save_config [("k".data, " x".data)])) = [("k".data, "x".data)] ∧
    load_config (some (save_config [("k".data, " x".data)])) ≠ [("k".data, " x".data)] := by
  refine ⟨by decide, by decide, by decide⟩

/-- C5 amended: saving the two-entry mapping and reloading yields an equal
mapping; saving the empty mapping yields the empty mapping; an entry
round-trips unchanged when its key and value contain no '=', no newline, and
no leading or trailing whitespace (load strips surrounding whitespace, so a
value such as " x" comes back as "x"); and a line with no '=' is silently
skipped, so loading a file consisting only of such a line yields the empty
mapping. -/
theorem C5_config_roundtrip :
    (load_config (some (save_config [("a".data, "1".data), ("b".data, "2".data)])) =
      [("a".data, "1".data), ("b".data, "2".data)]) ∧
    (load_config (some (save_config [])) = []) ∧
    (∀ cfg : List (List Char × List Char),
      (cfg.map (fun e => e.1)).Nodup →
      (∀ e ∈ cfg,
        e.1.contains '=' = false ∧ e.1.contains '\n' = false ∧ pyStrip e.1 = e.1 ∧
        e.2.contains '=' = false ∧ e.2.contains '\n' = false ∧ pyStrip e.2 = e.2) →
      load_config (some (save_config cfg)) = cfg) ∧
    (∀ line : List Char, line.contains '=' = false → line.contains '\n' = false →
      load_config (some line) = []) := by
  refine ⟨by decide, rfl, fun cfg hnd hwf => ?_, fun line h hn => ?_⟩
  · have hlines : splitOnChar '\n' (save_config cfg) =
        cfg.map (fun e => e.1 ++ '=' :: e.2) ++ [[]] := by
      refine save_config_lines cfg fun e he c hc => ?_
      rcases hwf e he with ⟨_, hk, _, _, hv, _⟩
      rcases List.mem_append.mp hc with h1 | h2
      · exact not_mem_of_contains_false _ _ hk c h1
      · rcases List.mem_cons.mp h2 with h3 | h4
        · subst h3; decide
        · exact not_mem_of_contains_false _ _ hv c h4
    show (splitOnChar '\n' (save_config cfg)).foldl
        (fun cfg line =>
          match parseLine line with
          | some kv => dictInsert cfg kv.1 kv.2
          | none => cfg) [] = cfg
    rw [hlines, load_foldl, List.filterMap_append, List.filterMap_map]
    have hparse : cfg.filterMap (parseLine ∘ fun e => e.1 ++ '=' :: e.2) = cfg := by
      refine filterMap_all_some _ cfg fun e he => ?_
      rcases hwf e he with ⟨hk1, _, hk3, _, _, hv3⟩
      show parseLine (e.1 ++ '=' :: e.2) = some e
      rw [parseLine_entry e.1 e.2 (not_mem_of_contains_false _ _ hk1) hk3 hv3]
    have hempty : List.filterMap parseLine [[]] = [] := rfl
    rw [hparse, hempty, List.append_nil]
    exact foldl_dictInsert_fresh cfg [] hnd (fun e _ e' he' => absurd he' (List.not_mem_nil e'))
  · show (splitOnChar '\n' line).foldl
        (fun cfg l =>
          match parseLine l with
          | some kv => dictInsert cfg kv.1 kv.2
          | none => cfg) [] = []
    rw [splitOnChar_no_sep '\n' line (not_mem_of_contains_false _ _ hn)]
    have hmem : '=' ∉ line := fun hm => not_mem_of_contains_false line '=' h '=' hm rfl
    simp [List.foldl_cons, parseLine, hmem]

/-- C5 witness: the general round-trip applied at one concrete clean entry. -/
theorem C5_config_roundtrip_witness :
    ([("key".data, "val".data)].map (fun e => e.1)).Nodup ∧
    load_config (some (save_config [("key".data, "val".data)])) =
      [("key".data, "val".data)] := by
  refine ⟨by decide, ?_⟩
  exact C5_config_roundtrip.2.2.1 [("key".data, "val".data)] (by decide)
    (by intro e he; refine ⟨?_, ?_, ?_, ?_, ?_, ?_⟩ <;>
      (simp only [List.mem_singleton] at he; subst he; decide))

/-! ## Claim C6 (installer progress invariants) -/

/-- Download-loop invariants: when the bytes received never exceed the
declared total, the loop never raises, its percentages chain upward from the
percentage of the bytes already received, and they stay at or below 70. -/
theorem downloadLoop_spec (chunks : List Nat) : ∀ t dl : Nat, dl + chunks.sum ≤ t →
    (downloadLoop t chunks dl).2 = true ∧
    List.Chain' (· ≤ ·)
      ((30 + dl * 40 / t) :: (downloadLoop t chunks dl).1.map (fun e => e.2)) ∧
    ∀ p ∈ (downloadLoop t chunks dl).1.map (fun e => e.2), p ≤ 70 := by
  induction chunks with
  | nil =>
    intro t dl h
    exact ⟨rfl, List.chain'_singleton _, by simp [downloadLoop]⟩
  | cons c rest ih =>
    intro t dl h
    rw [List.sum_cons] at h
    by_cases hc : c = 0
    · subst hc
      simpa [downloadLoop] using ih t dl (by omega)
    · have ht : t ≠ 0 := by omega
      have hrec := ih t (dl + c) (by omega)
      have hmono : 30 + dl * 40 / t ≤ 30 + (dl + c) * 40 / t := by
        have h1 : dl * 40 ≤ (dl + c) * 40 := by
          exact Nat.mul_le_mul_right 40 (by omega)
        have := Nat.div_le_div_right (c := t) h1
        omega
      have hbound : 30 + (dl + c) * 40 / t ≤ 70 := by
        have h1 : (dl + c) * 40 ≤ t * 40 := Nat.mul_le_mul_right 40 (by omega)
        have h2 := Nat.div_le_div_right (c := t) h1
        have h3 : t * 40 / t = 40 := Nat.mul_div_cancel_left 40 (Nat.pos_of_ne_zero ht)
        omega
      have hev : downloadLoop t (c :: rest) dl =
          (("Downloading...".data, 30 + (dl + c) * 40 / t) ::
            (downloadLoop t rest (dl + c)).1, (downloadLoop t rest (dl + c)).2) := by
        simp [downloadLoop, hc, ht]
      rw [hev]
      simp only [List.map_cons]
      refine ⟨hrec.1, ?_, ?_⟩
      · exact List.chain'_cons.mpr ⟨hmono, hrec.2.1⟩
      · intro p hp
        rcases List.mem_cons.mp hp with h1 | h2
        · omega
        · exact hrec.2.2 p h2

/-- Chain assembly for a full installer percentage trace. -/
theorem chain_assemble (P tail : List Nat)
    (h30 : List.Chain' (· ≤ ·) (30 :: P)) (h70 : ∀ p ∈ P, p ≤ 70)
    (htail : List.Chain' (· ≤ ·) (80 :: tail)) :
    List.Chain' (· ≤ ·) (10 :: 30 :: (P ++ 80 :: tail)) := by
  have key : List.Chain' (· ≤ ·) ((10 :: 30 :: P) ++ (80 :: tail)) := by
    rw [List.chain'_append]
    refine ⟨List.chain'_cons.mpr ⟨by omega, h30⟩, htail, ?_⟩
    intro x hx y hy
    simp only [List.head?, Option.mem_def, Option.some.injEq] at hy
    subst hy
    have hxmem : x ∈ 10 :: 30 :: P := List.mem_of_mem_getLast? hx
    rcases List.mem_cons.mp hxmem with h1 | h2
    · omega
    rcases List.mem_cons.mp h2 with h3 | h4
    · omega
    · have := h70 x h4
      omega
  simpa using key

/-- Shared progress invariants of both installers: within one run whose
download has a declared total size and whose received bytes never exceed it,
the percentages delivered to the callback are non-decreasing and within
[0,100], the value 100 appears only if the run succeeds, and on success the
final percentage is exactly 100. -/
theorem installEvents_progress (msg : List Char)
    (select : List (List Char × List Char) → Option (List Char))
    (env : InstallEnv) (t : Nat)
    (hcl : env.contentLength = some t) (hsum : env.chunks.sum ≤ t) :
    List.Chain' (· ≤ ·) ((installEvents msg select env).1.map (fun e => e.2)) ∧
    (∀ p ∈ (installEvents msg select env).1.map (fun e => e.2), p ≤ 100) ∧
    (100 ∈ (installEvents msg select env).1.map (fun e => e.2) →
      (installEvents msg select env).2 = true) ∧
    ((installEvents msg select env).2 = true →
      ((installEvents msg select env).1.map (fun e => e.2)).getLast? = some 100) := by
  have hdl := downloadLoop_spec env.chunks t 0 (by omega)
  have hzero : (30 : Nat) + 0 * 40 / t = 30 := by simp
  rw [hzero] at hdl
  by_cases ha : env.apiStatus = 200
  · cases hsel : select env.assets with
    | none =>
      have hev : installEvents msg select env = ([(msg, 10)], false) := by
        simp [installEvents, ha, hsel]
      rw [hev]
      exact ⟨by simp, by simp, by simp, by simp⟩
    | some u =>
      by_cases hdok : env.downloadOk = true
      · by_cases hext : env.extractOk = true
        · have hev : installEvents msg select env =
              ((msg, 10) :: ("Downloading...".data, 30) ::
                ((downloadLoop t env.chunks 0).1 ++
                  [("Extracting...".data, 80), ("Done!".data, 100)]), true) := by
            simp [installEvents, ha, hsel, hdok, hcl, hdl.1, hext]
          rw [hev]
          simp only [List.map_cons, List.map_append, List.map]
          refine ⟨?_, ?_, fun _ => by trivial, fun _ => ?_⟩
          · exact chain_assemble _ _ hdl.2.1 hdl.2.2 (by simp)
          · intro p hp
            rcases List.mem_cons.mp hp with h1 | h2
            · omega
            rcases List.mem_cons.mp h2 with h3 | h4
            · omega
            rcases List.mem_append.mp h4 with h5 | h6
            · have := hdl.2.2 p h5; omega
            · simp at h6; omega
          · have hsh : (10 : Nat) :: 30 ::
                ((downloadLoop t env.chunks 0).1.map (fun e => e.2) ++ [80, 100]) =
                (10 :: 30 :: ((downloadLoop t env.chunks 0).1.map (fun e => e.2) ++ [80]))
                  ++ [100] := by simp
            rw [hsh, List.getLast?_concat]
        · have hev : installEvents msg select env =
              ((msg, 10) :: ("Downloading...".data, 30) ::
                ((downloadLoop t env.chunks 0).1 ++ [("Extracting...".data, 80)]),
                false) := by
            simp [installEvents, ha, hsel, hdok, hcl, hdl.1, hext]
          rw [hev]
          simp only [List.map_cons, List.map_append, List.map]
          refine ⟨?_, ?_, ?_, by simp⟩
          · exact chain_assemble _ _ hdl.2.1 hdl.2.2 (by simp)
          · intro p hp
            rcases List.mem_cons.mp hp with h1 | h2
            · omega
            rcases List.mem_cons.mp h2 with h3 | h4
            · omega
            rcases List.mem_append.mp h4 with h5 | h6
            · have := hdl.2.2 p h5; omega
            · simp at h6; omega
          · intro hmem
            exfalso
            rcases List.mem_cons.mp hmem with h1 | h2
            · omega
            rcases List.mem_cons.mp h2 with h3 | h4
            · omega
            rcases List.mem_append.mp h4 with h5 | h6
            · have := hdl.2.2 100 h5; omega
            · simp at h6
      · have hev : installEvents msg select env =
            ([(msg, 10), ("Downloading...".data, 30)], false) := by
          simp [installEvents, ha, hsel, hdok]
        rw [hev]
        refine ⟨by simp, by simp, by simp, by simp⟩
  · have hev : installEvents msg select env = ([(msg, 10)], false) := by
      simp [installEvents, ha]
    rw [hev]
    exact ⟨by simp, by simp, by simp, by simp⟩

/-- C6: for both installers, within one run whose download has a declared
content-length and whose received byte count never exceeds that total, the
percentage sequence delivered to the progress callback is non-decreasing,
every percentage lies within [0,100], 100 is delivered only when the install
succeeds overall, and on success 100 is the final value. -/
theorem C6_progress_invariants (env : InstallEnv) (t : Nat)
    (hcl : env.contentLength = some t) (hsum : env.chunks.sum ≤ t) :
    (List.Chain' (· ≤ ·) ((sunshineInstallEvents env).1.map (fun e => e.2)) ∧
      (∀ p ∈ (sunshineInstallEvents env).1.map (fun e => e.2), p ≤ 100) ∧
      (100 ∈ (sunshineInstallEvents env).1.map (fun e => e.2) →
        (sunshineInstallEvents env).2 = true) ∧
      ((sunshineInstallEvents env).2 = true →
        ((sunshineInstallEvents env).1.map (fun e => e.2)).getLast? = some 100)) ∧
    (List.Chain' (· ≤ ·) ((moonlightInstallEvents env).1.map (fun e => e.2)) ∧
      (∀ p ∈ (moonlightInstallEvents env).1.map (fun e => e.2), p ≤ 100) ∧
      (100 ∈ (moonlightInstallEvents env).1.map (fun e => e.2) →
        (moonlightInstallEvents env).2 = true) ∧
      ((moonlightInstallEvents env).2 = true →
        ((moonlightInstallEvents env).1.map (fun e => e.2)).getLast? = some 100)) :=
  ⟨installEvents_progress _ selectAssetSunshine env t hcl hsum,
   installEvents_progress _ selectAssetMoonlight env t hcl hsum⟩

/-- C6 witness: the invariants evaluated on a concrete successful run. -/
theorem C6_progress_witness :
    ({ apiStatus := 200,
       assets := [("sunshine-windows-portable.zip".data, "u".data)],
       downloadOk := true, contentLength := some 100,
       chunks := [60, 40], extractOk := true : InstallEnv}.contentLength = some 100) ∧
    ([60, 40].sum ≤ 100) ∧
    ((sunshineInstallEvents
      { apiStatus := 200,
        assets := [("sunshine-windows-portable.zip".data, "u".data)],
        downloadOk := true, contentLength := some 100,
        chunks := [60, 40], extractOk := true }).2 = true →
      ((sunshineInstallEvents
        { apiStatus := 200,
          assets := [("sunshine-windows-portable.zip".data, "u".data)],
          downloadOk := true, contentLength := some 100,
          chunks := [60, 40], extractOk := true }).1.map (fun e => e.2)).getLast? =
        some 100) := by
  refine ⟨rfl, by decide, ?_⟩
  exact (C6_progress_invariants
    { apiStatus := 200,
      assets := [("sunshine-windows-portable.zip".data, "u".data)],
      downloadOk := true, contentLength := some 100,
      chunks := [60, 40], extractOk := true } 100 rfl (by decide)).1.2.2.2

/-! ## Base64 and UTF-8 round-trip lemmas (claims C4 and C3) -/

/-- Decoding table inverts the encoding alphabet. -/
theorem b64table_b64char : ∀ v, v < 64 → b64table (b64char v) = some v := by decide

/-- Alphabet characters are never the padding character. -/
theorem b64char_ne_pad : ∀ v, v < 64 → ¬b64char v = '=' := by decide

/-- Alphabet characters are ASCII and are not whitespace. -/
theorem b64char_props : ∀ v, v < 64 →
    pyIsSpace (b64char v) = false ∧ (b64char v).toNat < 128 := by decide

/-- Every character of an encoded byte string is the padding character or an
alphabet character. -/
theorem b64encode_chars : ∀ bs : List Nat, (∀ b ∈ bs, b < 256) →
    ∀ c ∈ b64encode bs, c = '=' ∨ ∃ v, v < 64 ∧ c = b64char v
  | [], _, c, hc => by simp [b64encode] at hc
  | [b1], h, c, hc => by
    have h1 : b1 < 256 := h b1 (by simp)
    simp only [b64encode, List.mem_cons, List.not_mem_nil, or_false] at hc
    rcases hc with hc | hc | hc | hc
    · exact Or.inr ⟨b1 / 4, by omega, hc⟩
    · exact Or.inr ⟨b1 % 4 * 16, by omega, hc⟩
    · exact Or.inl hc
    · exact Or.inl hc
  | [b1, b2], h, c, hc => by
    have h1 : b1 < 256 := h b1 (by simp)
    have h2 : b2 < 256 := h b2 (by simp)
    simp only [b64encode, List.mem_cons, List.not_mem_nil, or_false] at hc
    rcases hc with hc | hc | hc | hc
    · exact Or.inr ⟨b1 / 4, by omega, hc⟩
    · exact Or.inr ⟨b1 % 4 * 16 + b2 / 16, by omega, hc⟩
    · exact Or.inr ⟨b2 % 16 * 4, by omega, hc⟩
    · exact Or.inl hc
  | b1 :: b2 :: b3 :: rest, h, c, hc => by
    have h1 : b1 < 256 := h b1 (by simp)
    have h2 : b2 < 256 := h b2 (by simp)
    have h3 : b3 < 256 := h b3 (by simp)
    simp only [b64encode, List.mem_cons] at hc
    rcases hc with hc | hc | hc | hc | hc
    · exact Or.inr ⟨b1 / 4, by omega, hc⟩
    · exact Or.inr ⟨b1 % 4 * 16 + b2 / 16, by omega, hc⟩
    · exact Or.inr ⟨b2 % 16 * 4 + b3 / 64, by omega, hc⟩
    · exact Or.inr ⟨b3 % 64, by omega, hc⟩
    · exact b64encode_chars rest (fun b hb => h b (by simp [hb])) c hc

/-- Characters kept by rstripChar were already present. -/
theorem mem_of_mem_rstripChar (strip : Char) (l : List Char) (c : Char)
    (h : c ∈ rstripChar strip l) : c ∈ l := by
  unfold rstripChar at h
  rw [List.mem_reverse] at h
  exact List.mem_reverse.mp (mem_of_mem_dropWhile _ _ _ h)

/-- Characters kept by pyStrip were already present. -/
theorem mem_of_mem_pyStrip (l : List Char) (c : Char) (h : c ∈ pyStrip l) : c ∈ l := by
  unfold pyStrip at h
  rw [List.mem_reverse] at h
  have h2 := mem_of_mem_dropWhile _ _ _ h
  rw [List.mem_reverse] at h2
  exact mem_of_mem_dropWhile _ _ _ h2

/-- dropWhile distributes over an append whose tail it keeps whole. -/
theorem dropWhile_append_keep (p : Char → Bool) : ∀ A B : List Char,
    (∀ c ∈ B, p c = false) → (A ++ B).dropWhile p = A.dropWhile p ++ B
  | [], B, h => by simp [dropWhile_all_false p B h]
  | a :: A', B, h => by
    by_cases hp : p a = true
    · simp only [List.cons_append, List.dropWhile, hp]
      exact dropWhile_append_keep p A' B h
    · simp only [Bool.not_eq_true] at hp
      simp [List.dropWhile, hp]

/-- rstripChar passes over a padding-free prefix. -/
theorem rstripChar_append (xs ys : List Char) (h : ∀ c ∈ xs, ¬c = '=') :
    rstripChar '=' (xs ++ ys) = xs ++ rstripChar '=' ys := by
  unfold rstripChar
  rw [List.reverse_append]
  rw [dropWhile_append_keep _ _ _ (fun c hc => by
    simpa using h c (List.mem_reverse.mp hc))]
  rw [List.reverse_append, List.reverse_reverse]

/-- padB64 passes over a leading group of four characters. -/
theorem padB64_chunk (xs ys : List Char) (hxs : xs.length = 4) :
    padB64 (xs ++ ys) = xs ++ padB64 ys := by
  unfold padB64
  rw [List.length_append, hxs]
  have hm : (4 + ys.length) % 4 = ys.length % 4 := by omega
  rw [hm]
  by_cases hl : ys.length % 4 > 0
  · rw [if_pos hl, if_pos hl, List.append_assoc]
  · rw [if_neg hl, if_neg hl]

/-- Re-padding the stripped encoding recovers the padded encoding. -/
theorem padB64_rstrip_b64encode : ∀ bs : List Nat, (∀ b ∈ bs, b < 256) →
    padB64 (rstripChar '=' (b64encode bs)) = b64encode bs
  | [], _ => rfl
  | [b1], h => by
    have h1 : b1 < 256 := h b1 (by simp)
    have n1 : ¬b64char (b1 / 4) = '=' := b64char_ne_pad _ (by omega)
    have n2 : ¬b64char (b1 % 4 * 16) = '=' := b64char_ne_pad _ (by omega)
    show padB64 (rstripChar '='
      ([b64char (b1 / 4), b64char (b1 % 4 * 16)] ++ ['=', '='])) = _
    rw [rstripChar_append _ _ (by
      intro c hc
      rcases List.mem_cons.mp hc with h' | h'
      · subst h'; exact n1
      · rcases List.mem_cons.mp h' with h'' | h''
        · subst h''; exact n2
        · simp at h'')]
    have : rstripChar '=' ['=', '='] = [] := by decide
    rw [this, List.append_nil]
    rfl
  | [b1, b2], h => by
    have h1 : b1 < 256 := h b1 (by simp)
    have h2 : b2 < 256 := h b2 (by simp)
    have n1 : ¬b64char (b1 / 4) = '=' := b64char_ne_pad _ (by omega)
    have n2 : ¬b64char (b1 % 4 * 16 + b2 / 16) = '=' := b64char_ne_pad _ (by omega)
    have n3 : ¬b64char (b2 % 16 * 4) = '=' := b64char_ne_pad _ (by omega)
    show padB64 (rstripChar '='
      ([b64char (b1 / 4), b64char (b1 % 4 * 16 + b2 / 16), b64char (b2 % 16 * 4)] ++
        ['='])) = _
    rw [rstripChar_append _ _ (by
      intro c hc
      rcases List.mem_cons.mp hc with h' | h'
      · subst h'; exact n1
      rcases List.mem_cons.mp h' with h'' | h''
      · subst h''; exact n2
      rcases List.mem_cons.mp h'' with h3 | h3
      · subst h3; exact n3
      · simp at h3)]
    have : rstripChar '=' ['='] = [] := by decide
    rw [this, List.append_nil]
    rfl
  | b1 :: b2 :: b3 :: rest, h => by
    have h1 : b1 < 256 := h b1 (by simp)
    have h2 : b2 < 256 := h b2 (by simp)
    have h3 : b3 < 256 := h b3 (by simp)
    have hrest : ∀ b ∈ rest, b < 256 := fun b hb => h b (by simp [hb])
    have ih := padB64_rstrip_b64encode rest hrest
    have nchunk : ∀ c ∈ [b64char (b1 / 4), b64char (b1 % 4 * 16 + b2 / 16),
        b64char (b2 % 16 * 4 + b3 / 64), b64char (b3 % 64)], ¬c = '=' := by
      intro c hc
      rcases List.mem_cons.mp hc with h' | h'
      · subst h'; exact b64char_ne_pad _ (by omega)
      rcases List.mem_cons.mp h' with h' | h'
      · subst h'; exact b64char_ne_pad _ (by omega)
      rcases List.mem_cons.mp h' with h' | h'
      · subst h'; exact b64char_ne_pad _ (by omega)
      rcases List.mem_cons.mp h' with h' | h'
      · subst h'; exact b64char_ne_pad _ (by omega)
      · simp at h'
    show padB64 (rstripChar '='
      ([b64char (b1 / 4), b64char (b1 % 4 * 16 + b2 / 16),
        b64char (b2 % 16 * 4 + b3 / 64), b64char (b3 % 64)] ++ b64encode rest)) = _
    rw [rstripChar_append _ _ nchunk, padB64_chunk _ _ (by rfl), ih]
    rfl

/-- The non-strict base64 decoder inverts the padded encoder. -/
theorem a2b_b64encode : ∀ bs : List Nat, (∀ b ∈ bs, b < 256) →
    a2b (b64encode bs) 0 0 0 = some bs
  | [], _ => rfl
  | [b1], h => by
    have h1 : b1 < 256 := h b1 (by simp)
    have e1 := b64table_b64char (b1 / 4) (by omega)
    have e2 := b64table_b64char (b1 % 4 * 16) (by omega)
    have n1 := b64char_ne_pad (b1 / 4) (by omega)
    have n2 := b64char_ne_pad (b1 % 4 * 16) (by omega)
    simp [b64encode, a2b, e1, e2, n1, n2]
    omega
  | [b1, b2], h => by
    have h1 : b1 < 256 := h b1 (by simp)
    have h2 : b2 < 256 := h b2 (by simp)
    have e1 := b64table_b64char (b1 / 4) (by omega)
    have e2 := b64table_b64char (b1 % 4 * 16 + b2 / 16) (by omega)
    have e3 := b64table_b64char (b2 % 16 * 4) (by omega)
    have n1 := b64char_ne_pad (b1 / 4) (by omega)
    have n2 := b64char_ne_pad (b1 % 4 * 16 + b2 / 16) (by omega)
    have n3 := b64char_ne_pad (b2 % 16 * 4) (by omega)
    simp [b64encode, a2b, e1, e2, e3, n1, n2, n3]
    omega
  | b1 :: b2 :: b3 :: rest, h => by
    have h1 : b1 < 256 := h b1 (by simp)
    have h2 : b2 < 256 := h b2 (by simp)
    have h3 : b3 < 256 := h b3 (by simp)
    have hrest : ∀ b ∈ rest, b < 256 := fun b hb => h b (by simp [hb])
    have ih := a2b_b64encode rest hrest
    have e1 := b64table_b64char (b1 / 4) (by omega)
    have e2 := b64table_b64char (b1 % 4 * 16 + b2 / 16) (by omega)
    have e3 := b64table_b64char (b2 % 16 * 4 + b3 / 64) (by omega)
    have e4 := b64table_b64char (b3 % 64) (by omega)
    have n1 := b64char_ne_pad (b1 / 4) (by omega)
    have n2 := b64char_ne_pad (b1 % 4 * 16 + b2 / 16) (by omega)
    have n3 := b64char_ne_pad (b2 % 16 * 4 + b3 / 64) (by omega)
    have n4 := b64char_ne_pad (b3 % 64) (by omega)
    simp [b64encode, a2b, e1, e2, e3, e4, n1, n2, n3, n4, ih]
    omega

/-- UTF-8 encoding of an ASCII string is the list of its code points. -/
theorem utf8encode_ascii : ∀ s : List Char, (∀ c ∈ s, c.toNat < 128) →
    utf8encode s = s.map Char.toNat
  | [], _ => rfl
  | c :: rest, h => by
    have hc : c.toNat < 128 := h c (by simp)
    have ih := utf8encode_ascii rest (fun x hx => h x (by simp [hx]))
    simp [utf8encode, utf8encodeChar, hc, ih]

/-- One ASCII step of the UTF-8 decoder. -/
theorem utf8decode_cons_ascii (b : Nat) (r : List Nat) (hb : b < 128) :
    utf8decode (b :: r) = (utf8decode r).map (fun cs => Char.ofNat b :: cs) := by
  have hlen : utf8len b = 1 := by simp [utf8len, hb]
  cases r with
  | nil => simp [utf8decode, hlen]
  | cons b2 r2 => cases r2 with
    | nil => simp [utf8decode, hlen]
    | cons b3 r3 => cases r3 with
      | nil => simp [utf8decode, hlen]
      | cons b4 r4 => simp [utf8decode, hlen]

/-- UTF-8 decoding inverts the encoding of an ASCII string. -/
theorem utf8decode_ascii : ∀ s : List Char, (∀ c ∈ s, c.toNat < 128) →
    utf8decode (s.map Char.toNat) = some s
  | [], _ => rfl
  | c :: rest, h => by
    have hc : c.toNat < 128 := h c (by simp)
    have ih := utf8decode_ascii rest (fun x hx => h x (by simp [hx]))
    rw [List.map_cons, utf8decode_cons_ascii _ _ hc, ih]
    simp [Char.ofNat_toNat]

/-- Every character of the encoded connection code is ASCII and not
whitespace. -/
theorem encode_chars (ip : List Char) (hb : ∀ b ∈ utf8encode ip, b < 256) :
    ∀ c ∈ encode_connection_code ip, pyIsSpace c = false ∧ c.toNat < 128 := by
  intro c hc
  unfold encode_connection_code at hc
  rcases List.mem_append.mp hc with h1 | h2
  · have : c = 'G' ∨ c = 'S' ∨ c = 'P' ∨ c = '-' := by
      simpa using h1
    rcases this with h | h | h | h <;> subst h <;> exact ⟨by decide, by decide⟩
  · have hmem := mem_of_mem_rstripChar _ _ _ h2
    rcases b64encode_chars _ hb c hmem with h | ⟨v, hv, hcv⟩
    · subst h; exact ⟨by decide, by decide⟩
    · subst hcv; exact b64char_props v hv

/-- Round trip of the connection-code codec on ASCII strings. -/
theorem roundtrip_ascii (ip : List Char) (h : ∀ c ∈ ip, c.toNat < 128) :
    decode_connection_code (encode_connection_code ip) = some ip := by
  have henc : utf8encode ip = ip.map Char.toNat := utf8encode_ascii ip h
  have hb : ∀ b ∈ utf8encode ip, b < 256 := by
    rw [henc]
    intro b hb
    rcases List.mem_map.mp hb with ⟨c, hc, hcb⟩
    have := h c hc
    omega
  have hchars := encode_chars ip hb
  have hstrip : pyStrip (encode_connection_code ip) = encode_connection_code ip :=
    pyStrip_all_false _ (fun c hc => (hchars c hc).1)
  have hpre : "GSP-".data.isPrefixOf (encode_connection_code ip) = true := by
    unfold encode_connection_code
    exact List.isPrefixOf_iff_prefix.mpr (List.prefix_append _ _)
  have hdrop : (encode_connection_code ip).drop 4 =
      rstripChar '=' (b64encode (utf8encode ip)) := by
    unfold encode_connection_code
    have : ("GSP-".data).length = 4 := rfl
    rw [← this, List.drop_left]
  have hpad : padB64 (rstripChar '=' (b64encode (utf8encode ip))) =
      b64encode (utf8encode ip) := padB64_rstrip_b64encode _ hb
  have hascii : (b64encode (utf8encode ip)).any (fun c => 128 ≤ c.toNat) = false := by
    rw [List.any_eq_false]
    intro c hc
    rcases b64encode_chars _ hb c hc with h' | ⟨v, hv, hcv⟩
    · subst h'; decide
    · subst hcv
      have := (b64char_props v hv).2
      simpa using this
  have ha2b : a2b (b64encode (utf8encode ip)) 0 0 0 = some (utf8encode ip) :=
    a2b_b64encode _ hb
  have hutf : utf8decode (utf8encode ip) = some ip := by
    rw [henc]; exact utf8decode_ascii ip h
  unfold decode_connection_code
  simp only [hstrip, hpre, if_true, hdrop, hpad, hascii, Bool.false_eq_true,
    if_false, ha2b, hutf]

/-- splitOnChar never returns the empty list of pieces. -/
theorem splitOnChar_ne_nil (sep : Char) : ∀ l : List Char, splitOnChar sep l ≠ []
  | [] => by simp [splitOnChar]
  | c :: rest => by
    have ih := splitOnChar_ne_nil sep rest
    by_cases hc : c = sep
    · simp [splitOnChar, hc]
    · simp only [splitOnChar, if_neg hc]
      cases h : splitOnChar sep rest <;> simp

/-- Every character of a split string is the separator or sits in one of the
pieces. -/
theorem mem_splitOnChar (sep : Char) : ∀ (l : List Char) (c : Char), c ∈ l →
    c = sep ∨ ∃ g ∈ splitOnChar sep l, c ∈ g
  | [], c, hc => by simp at hc
  | a :: rest, c, hc => by
    by_cases ha : a = sep
    · rcases List.mem_cons.mp hc with h1 | h1
      · subst h1; exact Or.inl ha
      · rcases mem_splitOnChar sep rest c h1 with h2 | ⟨g, hg, hcg⟩
        · exact Or.inl h2
        · refine Or.inr ⟨g, ?_, hcg⟩
          simp [splitOnChar, ha, hg]
    · rcases List.mem_cons.mp hc with h1 | h1
      · subst h1
        refine Or.inr ?_
        cases h : splitOnChar sep rest with
        | nil => exact absurd h (splitOnChar_ne_nil sep rest)
        | cons g gs =>
          exact ⟨c :: g, by simp [splitOnChar, ha, h], by simp⟩
      · rcases mem_splitOnChar sep rest c h1 with h2 | ⟨g, hg, hcg⟩
        · exact Or.inl h2
        · cases h : splitOnChar sep rest with
          | nil => exact absurd h (splitOnChar_ne_nil sep rest)
          | cons g0 gs =>
            rw [h] at hg
            rcases List.mem_cons.mp hg with h3 | h3
            · subst h3
              exact Or.inr ⟨a :: g, by simp [splitOnChar, ha, h], by simp [hcg]⟩
            · exact Or.inr ⟨g, by simp [splitOnChar, ha, h, h3], hcg⟩

/-- Valid IPv4 literals are ASCII. -/
theorem isIPv4_ascii (s : List Char) (h : isIPv4Literal s = true) :
    ∀ c ∈ s, c.toNat < 128 := by
  intro c hc
  rcases mem_splitOnChar '.' s c hc with h1 | ⟨g, hg, hcg⟩
  · subst h1; decide
  · unfold isIPv4Literal at h
    rcases hsp : splitOnChar '.' s with _ | ⟨a, _ | ⟨b, _ | ⟨c', _ | ⟨d, _ | _⟩⟩⟩⟩ <;>
      rw [hsp] at h <;> try simp at h
    rw [hsp] at hg
    have hdig : isDigitChar c = true := by
      have hgOK : ipv4GroupOK g = true := by
        rcases List.mem_cons.mp hg with h2 | h2
        · subst h2; exact h.1.1.1
        rcases List.mem_cons.mp h2 with h3 | h3
        · subst h3; exact h.1.1.2
        rcases List.mem_cons.mp h3 with h4 | h4
        · subst h4; exact h.1.2
        rcases List.mem_cons.mp h4 with h5 | h5
        · subst h5; exact h.2
        · simp at h5
      have hparts : g.all isDigitChar = true := by
        simp only [ipv4GroupOK, Bool.and_eq_true] at hgOK
        exact hgOK.1.2
      exact List.all_eq_true.mp hparts c hcg
    simp only [isDigitChar, Bool.and_eq_true, decide_eq_true_eq] at hdig
    omega

/-- Strings over the IPv6 alphabet are ASCII. -/
theorem isIPv6_ascii (s : List Char) (h : isIPv6Chars s = true) :
    ∀ c ∈ s, c.toNat < 128 := by
  intro c hc
  have hall : s.all (fun c => isHexDigitChar c || c = ':' || c = '.') = true := by
    simp only [isIPv6Chars, Bool.and_eq_true] at h
    exact h.2
  have hcOK := List.all_eq_true.mp hall c hc
  simp only [isHexDigitChar, isDigitChar, Bool.or_eq_true, Bool.and_eq_true,
    decide_eq_true_eq] at hcOK
  rcases hcOK with ((((h1 | h1) | h1) | h1) | h1)
  · omega
  · omega
  · omega
  · subst h1; decide
  · subst h1; decide

/-- C4: for every valid IPv4 dotted-quad literal and every string over the
IPv6 literal alphabet (hexadecimal digits, ':' and the '.' of the
embedded-IPv4 form — a superset of the valid IPv6 literals), decoding the
encoded connection code returns exactly the original string. -/
theorem C4_roundtrip (ip : List Char)
    (h : isIPv4Literal ip = true ∨ isIPv6Chars ip = true) :
    decode_connection_code (encode_connection_code ip) = some ip := by
  rcases h with h | h
  · exact roundtrip_ascii ip (isIPv4_ascii ip h)
  · exact roundtrip_ascii ip (isIPv6_ascii ip h)

/-- C4 witness: the round trip evaluated at a concrete IPv4 literal and a
concrete IPv6 literal. -/
theorem C4_roundtrip_witness :
    (isIPv4Literal "10.0.0.1".data = true ∧
      decode_connection_code (encode_connection_code "10.0.0.1".data) =
        some "10.0.0.1".data) ∧
    (isIPv6Chars "fe80::1".data = true ∧
      decode_connection_code (encode_connection_code "fe80::1".data) =
        some "fe80::1".data) :=
  ⟨⟨by decide, C4_roundtrip "10.0.0.1".data (Or.inl (by decide))⟩,
   ⟨by decide, C4_roundtrip "fe80::1".data (Or.inr (by decide))⟩⟩

/-! ## Claim C3 (decode_connection_code on malformed input) -/

/-- The base64 scanner at group position zero ignores characters that carry no
data (junk characters and padding) and accepts the end of input. -/
theorem a2b_no_data : ∀ l : List Char, (∀ c ∈ l, b64table c = none) →
    ∀ lc pads, a2b l 0 lc pads = some []
  | [], _, _, _ => rfl
  | c :: rest, h, lc, pads => by
    have hrest := fun x hx => h x (List.mem_cons_of_mem c hx)
    by_cases hc : c = '='
    · simp only [a2b, if_pos hc]
      have : ¬2 ≤ 0 := by omega
      rw [if_neg this]
      exact a2b_no_data rest hrest lc pads
    · simp only [a2b, if_neg hc, h c (List.mem_cons_self c rest)]
      exact a2b_no_data rest hrest lc pads

/-- Inputs with no base64 data characters at all (ASCII junk, whitespace,
padding, the empty string) decode to the empty string, not to the None
sentinel: the lenient decoder discards them and decodes zero bytes. -/
theorem decode_no_data (code : List Char)
    (h : ∀ c ∈ code, b64table c = none ∧ c.toNat < 128) :
    decode_connection_code code = some [] := by
  have h1 : ∀ c ∈ pyStrip code, b64table c = none ∧ c.toNat < 128 :=
    fun c hc => h c (mem_of_mem_pyStrip code c hc)
  have hpre : "GSP-".data.isPrefixOf (pyStrip code) = false := by
    cases hp : "GSP-".data.isPrefixOf (pyStrip code) with
    | false => rfl
    | true =>
      exfalso
      rcases List.isPrefixOf_iff_prefix.mp hp with ⟨t, ht⟩
      have hG : 'G' ∈ pyStrip code := by rw [← ht]; simp
      have hGt := (h1 'G' hG).1
      revert hGt
      decide
  have hjunk3 : ∀ c ∈ padB64 (pyStrip code), b64table c = none := by
    intro c hc
    unfold padB64 at hc
    by_cases hl : (pyStrip code).length % 4 > 0
    · rw [if_pos hl] at hc
      rcases List.mem_append.mp hc with h2 | h2
      · exact (h1 c h2).1
      · have : c = '=' := List.eq_of_mem_replicate h2
        subst this; decide
    · rw [if_neg hl] at hc
      exact (h1 c hc).1
  have hascii : (padB64 (pyStrip code)).any (fun c => 128 ≤ c.toNat) = false := by
    rw [List.any_eq_false]
    intro c hc
    unfold padB64 at hc
    by_cases hl : (pyStrip code).length % 4 > 0
    · rw [if_pos hl] at hc
      rcases List.mem_append.mp hc with h2 | h2
      · have := (h1 c h2).2; simpa using this
      · have : c = '=' := List.eq_of_mem_replicate h2
        subst this; decide
    · rw [if_neg hl] at hc
      have := (h1 c hc).2; simpa using this
  have ha2b : a2b (padB64 (pyStrip code)) 0 0 0 = some [] :=
    a2b_no_data _ hjunk3 0 0
  unfold decode_connection_code
  simp only [hpre, Bool.false_eq_true, if_false, hascii, ha2b]
  rfl

/-- C3 counterexample: the empty string and a string of non-base64 characters
both decode to Some of the empty string, not to the None sentinel the claim
requires for every malformed input. -/
theorem C3_counterexample :
    decode_connection_code [] = some [] ∧
    decode_connection_code [] ≠ none ∧
    decode_connection_code "GSP-????".data = some [] ∧
    decode_connection_code "GSP-????".data ≠ none := by
  refine ⟨by decide, by decide, by decide, by decide⟩

/-- C3 amended: decode_connection_code never raises — the Python body catches
every exception, so the function is total with an Option result — and it
returns None when the base64 payload is malformed (a data-character count
that is one more than a multiple of four after junk is discarded, e.g.
"GSP-A") or when the decoded bytes are not valid UTF-8 (e.g. "GSP-_w", whose
payload decodes to the lone byte 0xFF); but non-base64 characters are
silently discarded rather than rejected, so the empty string, and every ASCII
string with no base64 data characters at all, decodes to Some of the empty
string rather than to None. -/
theorem C3_decode_malformed :
    (∀ code : List Char, (∀ c ∈ code, b64table c = none ∧ c.toNat < 128) →
      decode_connection_code code = some []) ∧
    decode_connection_code "GSP-A".data = none ∧
    decode_connection_code "GSP-_w".data = none := by
  exact ⟨decode_no_data, by decide, by decide⟩

/-- C3 witness: the amended statement applied at a concrete junk string. -/
theorem C3_decode_malformed_witness :
    (∀ c ∈ "!! ==".data, b64table c = none ∧ c.toNat < 128) ∧
    decode_connection_code "!! ==".data = some [] := by
  refine ⟨by decide, ?_⟩
  exact C3_decode_malformed.1 "!! ==".data (by decide)

example : decode_connection_code "".data = some [] := by decide
example : decode_connection_code "GSP-A".data = none := by decide
example : decode_connection_code "GSP-????".data = some [] := by decide
example : decode_connection_code "GSP-_w".data = none := by decide
example : encode_connection_code "192.168.0.42".data = "GSP-MTkyLjE2OC4wLjQy".data := by decide
example :
    decode_connection_code (encode_connection_code "192.168.0.42".data) =
      some "192.168.0.42".data := by decide
example : isIPv4Literal "192.168.0.42".data = true := by decide
example : isIPv6Chars "fe80::1".data = true := by decide

end GameBeam
